import Mathlib

/-!
Shallow embedding of the thread-control core of the JDWP debug agent
(src/jdk.jdwp.agent/share/native/libjdwp/threadControl.c) and proofs about
its suspend/resume state machine.

Modelling conventions:
* jthread handles are modelled as pairs of an identity and a virtual-thread
  flag; JNI IsSameObject becomes equality of identities.
* jint / jlong counters are modelled as Int (no operation here exercises
  32-bit overflow).
* JVMTI primitive calls are modelled by an oracle supplying their result
  codes; each embedded function additionally returns the list of actions
  (primitive calls, monitor operations) it performed, in order.
* EXIT_ERROR (fatal process exit) is modelled by the TCResult.fatal
  constructor.  Allocation failure paths (jvmtiAllocate returning NULL,
  which also end in EXIT_ERROR for the structures modelled here) are not
  modelled: allocations are assumed to succeed.
-/

namespace ThreadControl

/-- JVMTI and agent error codes that the embedded code distinguishes. -/
inductive JvmtiError where
  | NONE
  | THREAD_NOT_ALIVE
  | THREAD_SUSPENDED
  | INVALID_THREAD
  | OUT_OF_MEMORY
  | NO_MORE_FRAMES
  | INTERNAL
  | NULL_POINTER
  | otherErr (code : Nat)
deriving DecidableEq, Repr

/-- Model of a jthread handle: an identity plus whether it is a virtual
thread.  JNI IsSameObject is equality of identities. -/
structure JThread where
  id : Nat
  isVirtual : Bool
deriving DecidableEq, Repr

/-- Model of isVThread from util.c: asks the runtime whether the handle is a
virtual thread. -/
def isVThread (t : JThread) : Bool := t.isVirtual

/-- CoLocatedEventInfo from threadControl.c: event index (0 means none), the
class (a global reference that may be NULL when saveGlobalRef failed),
method and location of the last co-located event. -/
structure CoLocatedEventInfo where
  ei : Nat
  clazz : Option Nat
  method : Nat
  location : Int
deriving DecidableEq, Repr

/-- ThreadNode from threadControl.c: the per-thread record.  The step and
invoke request records, the event bag and the pending-stop object are owned
by external collaborators and are not part of any claim, so they are left
out of the model. -/
structure ThreadNode where
  thread : JThread
  toBeResumed : Bool
  pendingInterrupt : Bool
  isDebugThread : Bool
  suspendOnStart : Bool
  isStarted : Bool
  is_vthread : Bool
  popFrameEvent : Bool
  popFrameProceed : Bool
  popFrameThread : Bool
  current_ei : Nat
  suspendCount : Int
  instructionStepOn : Bool
  frameGeneration : Int
  cleInfo : CoLocatedEventInfo
deriving DecidableEq, Repr

/-- A freshly allocated, zeroed node for the given thread (memset 0 in
insertThread). -/
def ThreadNode.init (t : JThread) : ThreadNode where
  thread := t
  toBeResumed := false
  pendingInterrupt := false
  isDebugThread := false
  suspendOnStart := false
  isStarted := false
  is_vthread := false
  popFrameEvent := false
  popFrameProceed := false
  popFrameThread := false
  current_ei := 0
  suspendCount := 0
  instructionStepOn := false
  frameGeneration := 0
  cleInfo := ⟨0, none, 0, 0⟩

/-- Identifiers for the agent monitors that appear in traces. -/
inductive LockId where
  | threadLock
  | eventHandlerLock
  | invokerLock
  | eventHelperLock
  | stepControlLock
  | commonRefLock
  | popFrEventLock
  | popFrProceedLock
deriving DecidableEq, Repr

/-- Observable actions: JVMTI primitive calls, monitor operations and calls
into external collaborators, recorded in program order. -/
inductive Action where
  | SuspendThread (t : JThread)
  | ResumeThread (t : JThread)
  | SuspendThreadList (ts : List JThread)
  | ResumeThreadList (ts : List JThread)
  | SuspendAllVirtualThreads (excludeList : List JThread)
  | ResumeAllVirtualThreads (excludeList : List JThread)
  | PopFrame (t : JThread)
  | SetEventNotifyMode (enable : Bool) (ei : Nat) (t : Option JThread)
  | monitorEnter (l : LockId)
  | monitorExit (l : LockId)
  | monitorNotifyAll (l : LockId)
  | monitorNotify (l : LockId)
  | monitorCreate (l : LockId)
  | waitPopFrameEvent (t : JThread)
  | invokerIsEnabled (t : JThread)
  | stepControlResetRequest (t : JThread)
  | invokerEnableInvokeRequests (t : JThread)
  | unblockCommandLoop
  | pinAllRefs
  | unpinAllRefs
deriving DecidableEq, Repr

/-- Actions that are runtime (JVMTI) primitive calls. -/
def Action.isPrimitive : Action → Bool
  | .SuspendThread _ => true
  | .ResumeThread _ => true
  | .SuspendThreadList _ => true
  | .ResumeThreadList _ => true
  | .SuspendAllVirtualThreads _ => true
  | .ResumeAllVirtualThreads _ => true
  | .PopFrame _ => true
  | .SetEventNotifyMode _ _ _ => true
  | _ => false

/-- Actions that acquire a monitor. -/
def Action.isMonitorEnter : Action → Bool
  | .monitorEnter _ => true
  | _ => false

/-- Result of a per-node operation: the updated node, the returned error and
the trace of actions performed. -/
structure NodeOpResult where
  node : ThreadNode
  err : JvmtiError
  trace : List Action
deriving DecidableEq, Repr

/-- commonSuspendByNode: call the JVMTI SuspendThread primitive on the node
and mark the node for resume only if the suspend succeeded.  The parameter
e is the result returned by the primitive. -/
def commonSuspendByNode (e : JvmtiError) (n : ThreadNode) : NodeOpResult where
  node := if e = .NONE then { n with toBeResumed := true } else n
  err := e
  trace := [.SuspendThread n.thread]

/-- deferredSuspendThreadByNode: the deferred suspend performed once a
thread whose suspend was requested before it started becomes runnable.
Bookkeeping was done by the original request; the primitive is attempted
only if a subsequent resume has not made it irrelevant, a primitive failure
undoes the count increment made when suspendOnStart was set, and
suspendOnStart is cleared. -/
def deferredSuspendThreadByNode (e : JvmtiError) (n : ThreadNode) : NodeOpResult :=
  if n.isDebugThread then
    { node := n, err := .NONE, trace := [] }
  else if 0 < n.suspendCount then
    let r := commonSuspendByNode e n
    let node1 := if r.err ≠ .NONE then { r.node with suspendCount := r.node.suspendCount - 1 }
                 else r.node
    { node := { node1 with suspendOnStart := false }
      err := r.err
      trace := r.trace ++ [.monitorNotifyAll .threadLock] }
  else
    { node := { n with suspendOnStart := false }
      err := .NONE
      trace := [.monitorNotifyAll .threadLock] }

/-- suspendThreadByNode: the per-thread suspend.  Debug threads are ignored;
a pending deferred suspend just bumps the count; at count zero the primitive
is called, with THREAD_NOT_ALIVE absorbed by deferring to thread start; and
every successful outcome increments the count. -/
def suspendThreadByNode (e : JvmtiError) (n : ThreadNode) : NodeOpResult :=
  if n.isDebugThread then
    { node := n, err := .NONE, trace := [] }
  else if n.suspendOnStart then
    { node := { n with suspendCount := n.suspendCount + 1 }, err := .NONE, trace := [] }
  else
    let r :=
      if n.suspendCount = 0 then
        let r0 := commonSuspendByNode e n
        if r0.err = .THREAD_NOT_ALIVE then
          { node := { r0.node with suspendOnStart := true }, err := .NONE, trace := r0.trace }
        else r0
      else
        { node := n, err := .NONE, trace := [] }
    let node1 := if r.err = .NONE then { r.node with suspendCount := r.node.suspendCount + 1 }
                 else r.node
    { node := node1, err := r.err, trace := r.trace ++ [.monitorNotifyAll .threadLock] }

/-- resumeThreadByNode: the per-thread resume.  Debug threads are ignored;
a positive count is decremented and, when it reaches zero with toBeResumed
set, the ResumeThread primitive is called, the frame generation bumped and
toBeResumed cleared, with THREAD_NOT_ALIVE absorbed for never-started
threads. -/
def resumeThreadByNode (e : JvmtiError) (n : ThreadNode) : NodeOpResult :=
  if n.isDebugThread then
    { node := n, err := .NONE, trace := [] }
  else if 0 < n.suspendCount then
    let n1 : ThreadNode := { n with suspendCount := n.suspendCount - 1 }
    if n1.suspendCount = 0 ∧ n1.toBeResumed then
      let n2 : ThreadNode := { n1 with frameGeneration := n1.frameGeneration + 1,
                                       toBeResumed := false }
      let err := if e = .THREAD_NOT_ALIVE ∧ ¬n2.isStarted then .NONE else e
      { node := n2, err := err
        trace := [.monitorNotifyAll .threadLock, .ResumeThread n.thread] }
    else
      { node := n1, err := .NONE, trace := [.monitorNotifyAll .threadLock] }
  else
    { node := n, err := .NONE, trace := [] }

/-- Which of the three thread lists a node is inserted into. -/
inductive ListId where
  | running
  | runningV
  | otherL
deriving DecidableEq, Repr

/-- Global state of the thread-control module: the three thread lists, the
VM-wide suspend nesting level, the debug-thread set, the deferred
event-mode FIFO (mode, event index, thread) and whether the two pop-frame
monitors have been created. -/
structure TCState where
  runningThreads : List ThreadNode
  runningVThreads : List ThreadNode
  otherThreads : List ThreadNode
  suspendAllCount : Int
  debugThreads : List JThread
  deferredEventModes : List (Bool × Nat × JThread)
  popFrameLocksCreated : Bool
deriving DecidableEq, Repr

/-- Result of a fallible state-level operation: either a value or a fatal
process exit (EXIT_ERROR). -/
inductive TCResult (α : Type) where
  | ok (val : α)
  | fatal (err : JvmtiError) (msg : String)
deriving DecidableEq, Repr

/-- Result of a state-level operation: new state, returned error, action
trace. -/
structure StateOpResult where
  st : TCState
  err : JvmtiError
  trace : List Action
deriving DecidableEq, Repr

/-- Oracle for the results of runtime primitive calls and external
collaborator queries made during one embedded operation. -/
structure Oracle where
  suspendThreadErr : JThread → JvmtiError
  resumeThreadErr : JThread → JvmtiError
  suspendListErr : JvmtiError
  suspendListResults : Nat → JvmtiError
  resumeListErr : JvmtiError
  resumeListResults : List JvmtiError
  suspendAllVTErr : JvmtiError
  resumeAllVTErr : JvmtiError
  vthreadState : JThread → JvmtiError × Nat
  allThreads : List JThread
  invokerEnabled : JThread → Bool
  popFrameErr : JThread → JvmtiError
  setEventModeErr : JvmtiError

/-- Select one of the three lists of the state. -/
def TCState.list (st : TCState) : ListId → List ThreadNode
  | .running => st.runningThreads
  | .runningV => st.runningVThreads
  | .otherL => st.otherThreads

/-- Replace one of the three lists of the state. -/
def TCState.setList (st : TCState) : ListId → List ThreadNode → TCState
  | .running, l => { st with runningThreads := l }
  | .runningV, l => { st with runningVThreads := l }
  | .otherL, l => { st with otherThreads := l }

/-- Search a single list for the node of a thread (findThread with an
explicit list: the thread-local-storage fast path plus the linear scan both
amount to locating the node whose handle is the same object). -/
def findInList (l : List ThreadNode) (t : JThread) : Option ThreadNode :=
  l.find? (fun n => n.thread = t)

/-- findThread with a NULL list argument: search all lists. -/
def findThreadAny (st : TCState) (t : JThread) : Option ThreadNode :=
  match findInList st.runningThreads t with
  | some n => some n
  | none =>
    match findInList st.runningVThreads t with
    | some n => some n
    | none => findInList st.otherThreads t

/-- findRunningThread: search runningVThreads for a virtual thread, else
runningThreads. -/
def findRunningThread (st : TCState) (t : JThread) : Option ThreadNode :=
  if isVThread t then findInList st.runningVThreads t
  else findInList st.runningThreads t

/-- Apply f to the first node of the list whose thread is t. -/
def updateInList (t : JThread) (f : ThreadNode → ThreadNode) : List ThreadNode → List ThreadNode
  | [] => []
  | n :: ns => if n.thread = t then f n :: ns else n :: updateInList t f ns

/-- Apply f to the node of thread t inside the list lid. -/
def updateList (st : TCState) (lid : ListId) (t : JThread) (f : ThreadNode → ThreadNode) : TCState :=
  st.setList lid (updateInList t f (st.list lid))

/-- Apply f to the node of thread t, wherever findThreadAny locates it. -/
def updateAnywhere (st : TCState) (t : JThread) (f : ThreadNode → ThreadNode) : TCState :=
  if (findInList st.runningThreads t).isSome then
    { st with runningThreads := updateInList t f st.runningThreads }
  else if (findInList st.runningVThreads t).isSome then
    { st with runningVThreads := updateInList t f st.runningVThreads }
  else
    { st with otherThreads := updateInList t f st.otherThreads }

/-- Apply f to the node of thread t in the list findRunningThread uses. -/
def updateRunning (st : TCState) (t : JThread) (f : ThreadNode → ThreadNode) : TCState :=
  if isVThread t then { st with runningVThreads := updateInList t f st.runningVThreads }
  else { st with runningThreads := updateInList t f st.runningThreads }

/-- threadControl_isDebugThread: linear scan of the debug-thread set using
object identity. -/
def threadControl_isDebugThread (st : TCState) (t : JThread) : Bool :=
  st.debugThreads.any (fun d => d = t)

/-- JVMTI_THREAD_STATE_ALIVE bit of GetThreadState. -/
def JVMTI_THREAD_STATE_ALIVE : Nat := 1

/-- addNode: insertion at the head of a list. -/
def addNodeTo (st : TCState) (lid : ListId) (n : ThreadNode) : TCState :=
  st.setList lid (n :: st.list lid)

/-- insertThread: find the node of the thread in the given list or create a
fresh one.  A fresh non-vthread node inherits suspendAllCount (with a
deferred suspend) unless it is a debug thread; a fresh vthread node is
placed on otherThreads when not alive, inherits suspendAllCount, defers the
suspend only when not yet started, and is marked started when already
running.  Returns the state, the node and the list it lives in. -/
def insertThread (vstate : JThread → JvmtiError × Nat) (st : TCState) (lid : ListId)
    (t : JThread) : TCResult (TCState × ThreadNode × ListId) :=
  match findInList (st.list lid) t with
  | some node => .ok (st, node, lid)
  | none =>
    let is_vthread := lid = ListId.runningV
    let node0 := ThreadNode.init t
    if ¬is_vthread then
      let node1 :=
        if threadControl_isDebugThread st t then { node0 with isDebugThread := true }
        else if 0 < st.suspendAllCount then
          { node0 with suspendCount := st.suspendAllCount, suspendOnStart := true }
        else node0
      let node2 := { node1 with is_vthread := false }
      .ok (addNodeTo st lid node2, node2, lid)
    else
      let (verr, vst) := vstate t
      if verr ≠ .NONE then .fatal verr "getting vthread state"
      else
        let lid2 := if vst &&& JVMTI_THREAD_STATE_ALIVE = 0 then ListId.otherL else lid
        let node1 :=
          if 0 < st.suspendAllCount then
            { node0 with suspendCount := st.suspendAllCount, suspendOnStart := vst = 0 }
          else node0
        let node2 := if vst ≠ 0 then { node1 with isStarted := true } else node1
        let node3 := { node2 with is_vthread := true }
        .ok (addNodeTo st lid2 node3, node3, lid2)

/-- removeResumed: free every node of the list whose suspend count is zero
(used on otherThreads after resumes). -/
def removeResumed (l : List ThreadNode) : List ThreadNode :=
  l.filter (fun n => n.suspendCount ≠ 0)

/-- commonSuspend: find or start tracking the thread, then run the plain or
deferred per-node suspend and write the node back. -/
def commonSuspend (o : Oracle) (st : TCState) (t : JThread) (deferred : Bool) :
    TCResult StateOpResult :=
  let found : TCResult (TCState × ThreadNode × ListId) :=
    match findRunningThread st t with
    | some n => .ok (st, n, if isVThread t then ListId.runningV else ListId.running)
    | none =>
      if isVThread t then insertThread o.vthreadState st ListId.runningV t
      else insertThread o.vthreadState st ListId.otherL t
  match found with
  | .fatal e m => .fatal e m
  | .ok (st1, node, lid) =>
    let r := if deferred then deferredSuspendThreadByNode (o.suspendThreadErr t) node
             else suspendThreadByNode (o.suspendThreadErr t) node
    .ok { st := updateList st1 lid t (fun _ => r.node), err := r.err, trace := r.trace }

/-- getLocks: the fixed ordered lock set acquired before every suspend. -/
def getLocksTrace : List Action :=
  [.monitorEnter .eventHandlerLock, .monitorEnter .invokerLock,
   .monitorEnter .eventHelperLock, .monitorEnter .stepControlLock,
   .monitorEnter .commonRefLock, .monitorEnter .threadLock]

/-- releaseLocks: release in reverse order. -/
def releaseLocksTrace : List Action :=
  [.monitorExit .threadLock, .monitorExit .commonRefLock,
   .monitorExit .stepControlLock, .monitorExit .eventHelperLock,
   .monitorExit .invokerLock, .monitorExit .eventHandlerLock]

/-- threadControl_suspendThread: preSuspend, commonSuspend, postSuspend. -/
def threadControl_suspendThread (o : Oracle) (st : TCState) (t : JThread)
    (deferred : Bool) : TCResult StateOpResult :=
  match commonSuspend o st t deferred with
  | .fatal e m => .fatal e m
  | .ok r => .ok { r with trace := getLocksTrace ++ r.trace ++ releaseLocksTrace }

/-- commonResume: resume the node if the thread is tracked at all; untracked
threads were never suspended by the debugger, so nothing happens. -/
def commonResume (o : Oracle) (st : TCState) (t : JThread) : StateOpResult :=
  match findThreadAny st t with
  | none => { st := st, err := .NONE, trace := [] }
  | some n =>
    let r := resumeThreadByNode (o.resumeThreadErr t) n
    { st := updateAnywhere st t (fun _ => r.node), err := r.err, trace := r.trace }

/-- threadControl_resumeThread: commonResume under the proper lock order,
then sweep fully resumed nodes off otherThreads and optionally unblock the
command loop. -/
def threadControl_resumeThread (o : Oracle) (st : TCState) (t : JThread)
    (do_unblock : Bool) : StateOpResult :=
  let r := commonResume o st t
  let st2 := { r.st with otherThreads := removeResumed r.st.otherThreads }
  { st := st2
    err := r.err
    trace := [.monitorEnter .eventHandlerLock, .monitorEnter .threadLock] ++ r.trace
             ++ [.monitorExit .threadLock, .monitorExit .eventHandlerLock]
             ++ (if do_unblock then [.unblockCommandLoop] else []) }

/-- threadControl_suspendCount: the count of a tracked node; 0 for an
untracked platform thread; for an untracked virtual thread, 0 when the
runtime reports state 0 (not started) and suspendAllCount otherwise.  The
inner error of the state query shadows the outer one, which stays
JVMTI_ERROR_NONE; a failing state query is a fatal exit. -/
def threadControl_suspendCount (o : Oracle) (st : TCState) (t : JThread) :
    TCResult (JvmtiError × Int) :=
  let node :=
    match findRunningThread st t with
    | some n => some n
    | none => findInList st.otherThreads t
  match node with
  | some n => .ok (.NONE, n.suspendCount)
  | none =>
    if isVThread t then
      let (verr, vst) := o.vthreadState t
      if verr ≠ .NONE then .fatal verr "getting vthread state"
      else if vst = 0 then .ok (.NONE, 0)
      else .ok (.NONE, st.suspendAllCount)
    else .ok (.NONE, 0)

/-- threadControl_clearCLEInfo: reset the event index and drop the class
reference of the co-located-event record. -/
def threadControl_clearCLEInfo (st : TCState) (t : JThread) : TCState :=
  match findRunningThread st t with
  | none => st
  | some _ =>
    updateRunning st t (fun n =>
      { n with cleInfo := { n.cleInfo with ei := 0, clazz := none } })

/-- threadControl_cmpCLEInfo: true when the thread has a running node whose
saved co-located-event record has a nonzero event index, the same method
and location, and the identical class object. -/
def threadControl_cmpCLEInfo (st : TCState) (t : JThread) (clazz : Nat)
    (method : Nat) (location : Int) : Bool :=
  match findRunningThread st t with
  | none => false
  | some n =>
    n.cleInfo.ei ≠ 0 ∧ n.cleInfo.method = method ∧ n.cleInfo.location = location ∧
      n.cleInfo.clazz = some clazz

/-- threadControl_saveCLEInfo: record the co-located event on the running
node of the thread.  The refOk parameter models whether saveGlobalRef
produced a reference (on failure the stored class is NULL and will simply
never match). -/
def threadControl_saveCLEInfo (refOk : Bool) (st : TCState) (t : JThread) (ei : Nat)
    (clazz : Nat) (method : Nat) (location : Int) : TCState :=
  match findRunningThread st t with
  | none => st
  | some _ =>
    updateRunning st t (fun n =>
      { n with cleInfo := ⟨ei, if refOk then some clazz else none, method, location⟩ })

/-- One step of the first pass of commonSuspendList: find the thread on
runningThreads or start tracking it on otherThreads, skip debug threads,
bump the count of nodes waiting for a deferred suspend or already
suspended, and report whether the thread belongs on the request list.
The insertion always takes the non-vthread branch of insertThread because
the list argument is otherThreads, so this step never exits fatally. -/
def suspendListStep (st : TCState) (t : JThread) : TCState × Option JThread :=
  match findInList st.runningThreads t with
  | some node =>
    if node.isDebugThread then (st, none)
    else if node.suspendOnStart ∨ 0 < node.suspendCount then
      (updateList st .running t (fun n => { n with suspendCount := n.suspendCount + 1 }), none)
    else (st, some t)
  | none =>
    match insertThread (fun _ => (.NONE, 0)) st ListId.otherL t with
    | .fatal _ _ => (st, none)
    | .ok (st1, node, _) =>
      if node.isDebugThread then (st1, none)
      else if node.suspendOnStart ∨ 0 < node.suspendCount then
        (updateList st1 .otherL t (fun n => { n with suspendCount := n.suspendCount + 1 }), none)
      else (st1, some t)

/-- First pass of commonSuspendList over the initial thread list, collecting
the request list of threads that need the SuspendThreadList primitive. -/
def suspendListPass1 (st : TCState) : List JThread → TCState × List JThread
  | [] => (st, [])
  | t :: ts =>
    let (st1, c) := suspendListStep st t
    let (st2, req) := suspendListPass1 st1 ts
    (st2, (match c with | some t0 => [t0] | none => []) ++ req)

/-- Per-thread handling of one SuspendThreadList result: success marks the
node for resume, THREAD_SUSPENDED is absorbed without owing a resume,
THREAD_NOT_ALIVE defers the suspend to thread start, and every absorbed or
successful result increments the count. -/
def applySuspendListResult (res : JvmtiError) (n : ThreadNode) : ThreadNode :=
  let (n1, res1) :=
    if res = .NONE then ({ n with toBeResumed := true }, res)
    else if res = .THREAD_SUSPENDED then (n, .NONE)
    else if res = .THREAD_NOT_ALIVE then ({ n with suspendOnStart := true }, .NONE)
    else (n, res)
  if res1 = .NONE then { n1 with suspendCount := n1.suspendCount + 1 } else n1

/-- Second pass of commonSuspendList: walk the request list, a missing node
being a fatal exit, and apply each SuspendThreadList result. -/
def suspendListPass2 (resFn : Nat → JvmtiError) (st : TCState) :
    List JThread → Nat → TCResult TCState
  | [], _ => .ok st
  | t :: ts, i =>
    match findThreadAny st t with
    | none => .fatal .INVALID_THREAD "missing entry in thread tables"
    | some _ =>
      suspendListPass2 resFn (updateAnywhere st t (applySuspendListResult (resFn i))) ts (i + 1)

/-- commonSuspendList: the batch suspend over an initial thread list; the
primitive is called only when the pre-filter left something to suspend. -/
def commonSuspendList (o : Oracle) (st : TCState) (initList : List JThread) :
    TCResult StateOpResult :=
  let (st1, reqList) := suspendListPass1 st initList
  if reqList.isEmpty then
    .ok { st := st1, err := .NONE, trace := [.monitorNotifyAll .threadLock] }
  else
    match suspendListPass2 o.suspendListResults st1 reqList 0 with
    | .fatal e m => .fatal e m
    | .ok st2 =>
      .ok { st := st2, err := o.suspendListErr
            trace := [.SuspendThreadList reqList, .monitorNotifyAll .threadLock] }

/-- resumeCountHelper predicate: a node that needs a hard resume (count one
and marked for resume; debug threads never count). -/
def resumeCountPred (n : ThreadNode) : Bool :=
  ¬n.isDebugThread ∧ n.suspendCount = 1 ∧ n.toBeResumed

/-- resumeCopyHelper with a NULL argument: only the accounting part.
Nested suspends lose one level; a node still waiting for its deferred
suspend at count one just drops to zero. -/
def resumeCopyAccount (n : ThreadNode) : ThreadNode :=
  if n.isDebugThread then n
  else if 1 < n.suspendCount then { n with suspendCount := n.suspendCount - 1 }
  else if n.suspendCount = 1 ∧ n.suspendOnStart then { n with suspendCount := n.suspendCount - 1 }
  else n

/-- resumeCopyHelper with the request-list argument: the accounting part
plus collection of the threads to hard resume. -/
def resumeCopyCollect (n : ThreadNode) : ThreadNode × List JThread :=
  if n.isDebugThread then (n, [])
  else if 1 < n.suspendCount then ({ n with suspendCount := n.suspendCount - 1 }, [])
  else if n.suspendCount = 1 ∧ n.suspendOnStart then
    ({ n with suspendCount := n.suspendCount - 1 }, [])
  else if n.suspendCount = 1 ∧ n.toBeResumed then (n, [n.thread])
  else (n, [])

/-- The copy pass of commonResumeList over one thread list. -/
def resumeCopyPass : List ThreadNode → List ThreadNode × List JThread
  | [] => ([], [])
  | n :: ns =>
    let (n1, c) := resumeCopyCollect n
    let (ns1, cs) := resumeCopyPass ns
    (n1 :: ns1, c ++ cs)

/-- The accounting performed on every hard-resumed node after the
ResumeThreadList primitive, mirroring resumeThreadByNode. -/
def hardResumeUpdate (n : ThreadNode) : ThreadNode :=
  { n with suspendCount := n.suspendCount - 1, toBeResumed := false,
           frameGeneration := n.frameGeneration + 1 }

/-- The loop after the ResumeThreadList primitive: each thread of the
request list must still have a running node (else fatal exit) and is
accounted as resumed; the per-thread result codes are never consulted. -/
def applyHardResumes (st : TCState) : List JThread → TCResult TCState
  | [] => .ok st
  | t :: ts =>
    match findRunningThread st t with
    | none => .fatal .INVALID_THREAD "missing entry in running thread table"
    | some _ => applyHardResumes (updateRunning st t hardResumeUpdate) ts

/-- commonResumeList: count the hard resumes over runningThreads and
runningVThreads; with none, only the accounting pass runs; otherwise the
copy pass also fills the request list handed to ResumeThreadList, whose
results array (the resumeListResults oracle component) is ignored. -/
def commonResumeList (o : Oracle) (st : TCState) : TCResult StateOpResult :=
  let reqCnt := st.runningThreads.countP (fun n => resumeCountPred n)
                  + st.runningVThreads.countP (fun n => resumeCountPred n)
  if reqCnt = 0 then
    .ok { st := { st with runningThreads := st.runningThreads.map resumeCopyAccount,
                          runningVThreads := st.runningVThreads.map resumeCopyAccount }
          err := .NONE, trace := [] }
  else
    let (rt1, req1) := resumeCopyPass st.runningThreads
    let (rv1, req2) := resumeCopyPass st.runningVThreads
    let reqList := req1 ++ req2
    let st1 := { st with runningThreads := rt1, runningVThreads := rv1 }
    match applyHardResumes st1 reqList with
    | .fatal e m => .fatal e m
    | .ok st2 =>
      .ok { st := st2, err := o.resumeListErr
            trace := [.ResumeThreadList reqList, .monitorNotifyAll .threadLock] }

/-- incrementSuspendCountHelper: during suspendAll every tracked virtual
thread is marked for resume and its count bumped. -/
def incrementSuspendCountHelper (n : ThreadNode) : ThreadNode :=
  { n with toBeResumed := true, suspendCount := n.suspendCount + 1 }

/-- suspendAllHelper over otherThreads: threads absent from the fetched
thread list get an ordinary per-thread suspend.  Enumeration stops at the
first failing helper. -/
def suspendAllOtherLoop (o : Oracle) (threads : List JThread) (st : TCState) :
    List JThread → TCResult (TCState × JvmtiError × List Action)
  | [] => .ok (st, .NONE, [])
  | t :: ts =>
    if threads.contains t then suspendAllOtherLoop o threads st ts
    else
      match commonSuspend o st t false with
      | .fatal e m => .fatal e m
      | .ok r =>
        if r.err = .NONE then
          match suspendAllOtherLoop o threads r.st ts with
          | .fatal e m => .fatal e m
          | .ok (st2, err2, tr2) => .ok (st2, err2, r.trace ++ tr2)
        else .ok (r.st, r.err, r.trace)

/-- threadControl_suspendAll: bulk-suspend all virtual threads on the first
nesting level, bump every tracked virtual thread, batch-suspend the
runtime thread list, suspend leftover otherThreads entries, and on success
pin all references and bump the nesting level. -/
def threadControl_suspendAll (o : Oracle) (vthreadsSupported : Bool) (st : TCState) :
    TCResult StateOpResult :=
  let vtres : TCResult (TCState × List Action) :=
    if vthreadsSupported then
      if st.suspendAllCount = 0 then
        if o.suspendAllVTErr ≠ .NONE then
          .fatal o.suspendAllVTErr "cannot suspend all virtual threads"
        else
          .ok ({ st with runningVThreads := st.runningVThreads.map incrementSuspendCountHelper },
               [Action.SuspendAllVirtualThreads [], Action.monitorNotifyAll .threadLock])
      else
        .ok ({ st with runningVThreads := st.runningVThreads.map incrementSuspendCountHelper },
             [])
    else .ok (st, [])
  match vtres with
  | .fatal e m => .fatal e m
  | .ok (st1, tr1) =>
    match commonSuspendList o st1 o.allThreads with
    | .fatal e m => .fatal e m
    | .ok r =>
      if r.err ≠ .NONE then
        .ok { st := r.st, err := r.err,
              trace := getLocksTrace ++ tr1 ++ r.trace ++ releaseLocksTrace }
      else
        match suspendAllOtherLoop o o.allThreads r.st
                (r.st.otherThreads.map (fun n => n.thread)) with
        | .fatal e m => .fatal e m
        | .ok (st3, err3, tr3) =>
          let (st4, tr4) :=
            if err3 = .NONE then
              ({ st3 with suspendAllCount := st3.suspendAllCount + 1 }, [Action.pinAllRefs])
            else (st3, [])
          .ok { st := st4, err := err3
                trace := getLocksTrace ++ tr1 ++ r.trace ++ tr3 ++ tr4 ++ releaseLocksTrace }

/-- resumeHelper enumeration over otherThreads during resumeAll: resume each
node in place, stopping at the first failure. -/
def resumeOtherLoop (o : Oracle) : List ThreadNode → List ThreadNode × JvmtiError × List Action
  | [] => ([], .NONE, [])
  | n :: ns =>
    let r := resumeThreadByNode (o.resumeThreadErr n.thread) n
    if r.err = .NONE then
      let (ns1, err1, tr1) := resumeOtherLoop o ns
      (r.node :: ns1, err1, r.trace ++ tr1)
    else (r.node :: ns, r.err, r.trace)

/-- Tail of threadControl_resumeAll once the batch resume has produced r:
when r succeeded and otherThreads is nonempty, resume those nodes and sweep
the resumed ones; then decrement the nesting level (unpinning) if it is
positive; assemble error and trace. -/
def resumeAllFinish (o : Oracle) (tr1 : List Action) (r : StateOpResult) : StateOpResult :=
  let (st2, err2, tr2) :=
    if r.err = .NONE ∧ ¬r.st.otherThreads.isEmpty then
      let (other1, errH, trH) := resumeOtherLoop o r.st.otherThreads
      ({ r.st with otherThreads := removeResumed other1 }, errH, trH)
    else (r.st, r.err, [])
  let (st3, tr3) :=
    if 0 < st2.suspendAllCount then
      ({ st2 with suspendAllCount := st2.suspendAllCount - 1 }, [Action.unpinAllRefs])
    else (st2, [])
  { st := st3, err := err2
    trace := [.monitorEnter .eventHandlerLock, .monitorEnter .threadLock]
             ++ tr1 ++ r.trace ++ tr2 ++ tr3
             ++ [.monitorExit .threadLock, .monitorExit .eventHandlerLock,
                 .unblockCommandLoop] }

/-- threadControl_resumeAll: on the last nesting level, bulk-resume all
virtual threads except the tracked ones that must stay suspended (exclusion
list built by excludeCountHelper and excludeCopyHelper from every tracked
virtual thread with a positive count); then the batch list resume, the
otherThreads sweep, and the nesting-level decrement. -/
def threadControl_resumeAll (o : Oracle) (vthreadsSupported : Bool) (st : TCState) :
    TCResult StateOpResult :=
  let vtres : TCResult (List Action) :=
    if vthreadsSupported ∧ st.suspendAllCount = 1 then
      let excludeList :=
        (st.runningVThreads.filter (fun n => 0 < n.suspendCount)).map (fun n => n.thread)
      if o.resumeAllVTErr ≠ .NONE then
        .fatal o.resumeAllVTErr "cannot resume all virtual threads"
      else
        .ok [Action.ResumeAllVirtualThreads excludeList, Action.monitorNotifyAll .threadLock]
    else .ok ([] : List Action)
  match vtres with
  | .fatal e m => .fatal e m
  | .ok tr1 =>
    match commonResumeList o st with
    | .fatal e m => .fatal e m
    | .ok r => .ok (resumeAllFinish o tr1 r)

/-- resetHelper: primitively resume every node still marked for resume and
zero its suspend bookkeeping. -/
def resetHelper (n : ThreadNode) : ThreadNode :=
  let n1 := if n.toBeResumed then { n with frameGeneration := n.frameGeneration + 1 } else n
  { n1 with toBeResumed := false, suspendCount := 0, suspendOnStart := false }

/-- threadControl_reset: on debugger disconnect, bulk-resume all virtual
threads if a suspendAll is outstanding, reset every node, sweep
otherThreads, drop the deferred event modes, zero the nesting level and,
unless virtual threads are remembered across connections, drop all
tracked virtual threads. -/
def threadControl_reset (o : Oracle) (vthreadsSupported remember : Bool) (st : TCState) :
    TCResult StateOpResult :=
  let vtres : TCResult (List Action) :=
    if vthreadsSupported ∧ 0 < st.suspendAllCount then
      if o.resumeAllVTErr ≠ .NONE then
        .fatal o.resumeAllVTErr "cannot resume all virtual threads"
      else .ok [Action.ResumeAllVirtualThreads []]
    else .ok ([] : List Action)
  match vtres with
  | .fatal e m => .fatal e m
  | .ok tr1 =>
    let st1 := { st with runningThreads := st.runningThreads.map resetHelper,
                         otherThreads := removeResumed (st.otherThreads.map resetHelper),
                         runningVThreads := st.runningVThreads.map resetHelper,
                         deferredEventModes := [], suspendAllCount := 0 }
    let st2 := if remember then st1 else { st1 with runningVThreads := [] }
    .ok { st := st2, err := .NONE, trace := tr1 ++ [.monitorNotifyAll .threadLock] }

/-- Initial empty module state (threadControl_initialize). -/
def emptyState : TCState where
  runningThreads := []
  runningVThreads := []
  otherThreads := []
  suspendAllCount := 0
  debugThreads := []
  deferredEventModes := []
  popFrameLocksCreated := false

/-- Oracle in which every primitive succeeds, GetAllThreads returns no
platform threads and every virtual thread reports an alive state. -/
def oracleOk : Oracle where
  suspendThreadErr := fun _ => .NONE
  resumeThreadErr := fun _ => .NONE
  suspendListErr := .NONE
  suspendListResults := fun _ => .NONE
  resumeListErr := .NONE
  resumeListResults := []
  suspendAllVTErr := .NONE
  resumeAllVTErr := .NONE
  vthreadState := fun _ => (.NONE, JVMTI_THREAD_STATE_ALIVE)
  allThreads := []
  invokerEnabled := fun _ => false
  popFrameErr := fun _ => .NONE
  setEventModeErr := .NONE

/-- The two tracked virtual threads of the resumeAll exclusion scenario. -/
def vt1 : JThread := ⟨1, true⟩

/-- Second tracked virtual thread of the scenario. -/
def vt2 : JThread := ⟨2, true⟩

/-- A started tracked virtual-thread node. -/
def vtNode (t : JThread) : ThreadNode :=
  { ThreadNode.init t with isStarted := true, is_vthread := true }

/-- Scenario start: v1 and v2 tracked on runningVThreads, nothing suspended. -/
def scenarioStart : TCState :=
  { emptyState with runningVThreads := [vtNode vt1, vtNode vt2] }

/-- Project the state out of an operation result (dummy on fatal). -/
def stateOf (r : TCResult StateOpResult) : TCState :=
  match r with
  | .ok v => v.st
  | .fatal _ _ => emptyState

/-- Scenario after suspendAll: both counts are one. -/
def scenarioAfterSuspendAll : TCState :=
  stateOf (threadControl_suspendAll oracleOk true scenarioStart)

/-- Scenario after the additional per-thread suspend of v1: v1 count two,
v2 count one. -/
def scenarioSuspended : TCState :=
  stateOf (threadControl_suspendThread oracleOk scenarioAfterSuspendAll vt1 false)

/-- The resumeAll of the scenario. -/
def scenarioResumeAll : TCResult StateOpResult :=
  threadControl_resumeAll oracleOk true scenarioSuspended

/-- Collect the exclusion lists of all ResumeAllVirtualThreads calls of a
trace. -/
def excludeListsOfTrace : List Action → List (List JThread)
  | [] => []
  | .ResumeAllVirtualThreads l :: rest => l :: excludeListsOfTrace rest
  | _ :: rest => excludeListsOfTrace rest

/-- Collect the request lists of all ResumeThreadList calls of a trace. -/
def resumeListsOfTrace : List Action → List (List JThread)
  | [] => []
  | .ResumeThreadList l :: rest => l :: resumeListsOfTrace rest
  | _ :: rest => resumeListsOfTrace rest

/-- Trace of an operation result (empty on fatal). -/
def traceOf (r : TCResult StateOpResult) : List Action :=
  match r with
  | .ok v => v.trace
  | .fatal _ _ => []

/-- Modelled from the spec: the event-index enumeration lives in
eventHandler.h, which is not among the sources; only equality with the
single-step index matters here, so it is pinned to an arbitrary nonzero
value. -/
def EI_SINGLE_STEP : Nat := 1

/-- threadControl_getInstructionStepMode: the recorded single-step
enablement of the running node, JVMTI_DISABLE when untracked. -/
def threadControl_getInstructionStepMode (st : TCState) (t : JThread) :
    Bool × List Action :=
  let mode :=
    match findRunningThread st t with
    | some n => n.instructionStepOn
    | none => false
  (mode, [.monitorEnter .threadLock, .monitorExit .threadLock])

/-- threadSetEventNotificationMode: mirror single-step enablement into the
node and call the SetEventNotificationMode primitive. -/
def threadSetEventNotificationMode (primErr : JvmtiError) (enable : Bool) (ei : Nat)
    (n : ThreadNode) : ThreadNode × JvmtiError × List Action :=
  let n1 := if ei = EI_SINGLE_STEP then { n with instructionStepOn := enable } else n
  (n1, primErr, [.SetEventNotifyMode enable ei (some n.thread)])

/-- threadControl_setEventMode: global events go straight to the primitive;
per-thread events on a thread that is not tracked as running and started are
queued on the deferred FIFO, otherwise applied to the node. -/
def threadControl_setEventMode (o : Oracle) (st : TCState) (enable : Bool) (ei : Nat)
    (t : Option JThread) : TCState × JvmtiError × List Action :=
  match t with
  | none => (st, o.setEventModeErr, [.SetEventNotifyMode enable ei none])
  | some th =>
    match findRunningThread st th with
    | some n =>
      if ¬n.isStarted then
        ({ st with deferredEventModes := st.deferredEventModes ++ [(enable, ei, th)] },
         .NONE, [.monitorEnter .threadLock, .monitorExit .threadLock])
      else
        let (n1, err, tr) := threadSetEventNotificationMode o.setEventModeErr enable ei n
        (updateRunning st th (fun _ => n1), err,
         [.monitorEnter .threadLock] ++ tr ++ [.monitorExit .threadLock])
    | none =>
      ({ st with deferredEventModes := st.deferredEventModes ++ [(enable, ei, th)] },
       .NONE, [.monitorEnter .threadLock, .monitorExit .threadLock])

/-- initLocks: lazily create the two pop-frame monitors. -/
def initLocks (st : TCState) : TCState × List Action :=
  if st.popFrameLocksCreated then (st, [])
  else ({ st with popFrameLocksCreated := true },
        [.monitorCreate .popFrEventLock, .monitorCreate .popFrProceedLock])

/-- setPopFrameThread: flip the pop-frame-in-progress flag of the node; a
missing node is a fatal exit. -/
def setPopFrameThread (st : TCState) (t : JThread) (v : Bool) :
    TCResult (TCState × List Action) :=
  match findThreadAny st t with
  | none => .fatal .NULL_POINTER "entry in thread table"
  | some _ =>
    .ok (updateAnywhere st t (fun n => { n with popFrameThread := v }),
         [.monitorEnter .threadLock, .monitorExit .threadLock])

/-- setPopFrameEvent: flip the event-arrived flag; the source increments the
frame generation on every call; a missing node is a fatal exit. -/
def setPopFrameEvent (st : TCState) (t : JThread) (v : Bool) :
    TCResult (TCState × List Action) :=
  match findThreadAny st t with
  | none => .fatal .NULL_POINTER "entry in thread table"
  | some _ =>
    .ok (updateAnywhere st t (fun n =>
           { n with popFrameEvent := v, frameGeneration := n.frameGeneration + 1 }),
         [.monitorEnter .threadLock, .monitorExit .threadLock])

/-- setPopFrameProceed: flip the proceed flag; a missing node is a fatal
exit. -/
def setPopFrameProceed (st : TCState) (t : JThread) (v : Bool) :
    TCResult (TCState × List Action) :=
  match findThreadAny st t with
  | none => .fatal .NULL_POINTER "entry in thread table"
  | some _ =>
    .ok (updateAnywhere st t (fun n => { n with popFrameProceed := v }),
         [.monitorEnter .threadLock, .monitorExit .threadLock])

/-- popOneFrame: pop, resume so the step event fires, wait for the event
(the wait loop exits once the target thread has signalled, which on the
target side runs setPopFrameEvent with value true, modelled here as the
observed post-state of the wait), then re-suspend the target and let it
proceed.  The suspend error is returned even though the proceed signal is
still sent. -/
def popOneFrame (o : Oracle) (st : TCState) (t : JThread) :
    TCResult (TCState × JvmtiError × List Action) :=
  let e1 := o.popFrameErr t
  if e1 ≠ .NONE then .ok (st, e1, [.PopFrame t])
  else
    let e2 := o.resumeThreadErr t
    if e2 ≠ .NONE then .ok (st, e2, [.PopFrame t, .ResumeThread t])
    else
      match setPopFrameEvent st t false with
      | .fatal e m => .fatal e m
      | .ok (st1, tr1) =>
        let st2 := updateAnywhere st1 t (fun n =>
          { n with popFrameEvent := true, frameGeneration := n.frameGeneration + 1 })
        let e3 := o.suspendThreadErr t
        match setPopFrameProceed st2 t true with
        | .fatal e m => .fatal e m
        | .ok (st3, tr3) =>
          .ok (st3, e3,
            [.PopFrame t, .ResumeThread t] ++ tr1
              ++ [.waitPopFrameEvent t, .monitorEnter .popFrProceedLock, .SuspendThread t]
              ++ tr3 ++ [.monitorNotify .popFrProceedLock, .monitorExit .popFrProceedLock])

/-- Loop of threadControl_popFrames: pop frames one at a time, stopping at
the first failure. -/
def popFramesLoop (o : Oracle) (t : JThread) :
    TCState → Nat → TCResult (TCState × JvmtiError × List Action)
  | st, 0 => .ok (st, .NONE, [])
  | st, k + 1 =>
    match popOneFrame o st t with
    | .fatal e m => .fatal e m
    | .ok (st1, e1, tr1) =>
      if e1 ≠ .NONE then .ok (st1, e1, tr1)
      else
        match popFramesLoop o t st1 k with
        | .fatal e m => .fatal e m
        | .ok (st2, e2, tr2) => .ok (st2, e2, tr1 ++ tr2)

/-- threadControl_popFrames: compute the pop count and bail out with the
no-more-frames error when it is not positive; otherwise save the previous
step and invoke modes, enable single step, run the pop loop under the
pop-frame event monitor and restore the saved state. -/
def threadControl_popFrames (o : Oracle) (st : TCState) (t : JThread) (fnum : Int) :
    TCResult StateOpResult :=
  let (st0, tr0) := initLocks st
  let popCount := fnum + 1
  if popCount < 1 then
    .ok { st := st0, err := .NO_MORE_FRAMES, trace := tr0 }
  else
    let (prevStepOn, trA) := threadControl_getInstructionStepMode st0 t
    let prevInvokeRequestOn := o.invokerEnabled t
    let trB := [Action.invokerIsEnabled t]
    let (st1, eSet, trC) := threadControl_setEventMode o st0 true EI_SINGLE_STEP (some t)
    if eSet ≠ .NONE then
      .ok { st := st1, err := eSet, trace := tr0 ++ trA ++ trB ++ trC }
    else
      match setPopFrameThread st1 t true with
      | .fatal e m => .fatal e m
      | .ok (st2, tr2) =>
        match popFramesLoop o t st2 popCount.toNat with
        | .fatal e m => .fatal e m
        | .ok (st3, eLoop, tr3) =>
          match setPopFrameThread st3 t false with
          | .fatal e m => .fatal e m
          | .ok (st4, tr4) =>
            let trD := (if prevStepOn then [Action.stepControlResetRequest t] else [])
                       ++ (if prevInvokeRequestOn then [Action.invokerEnableInvokeRequests t]
                           else [])
            let (st5, _, trE) := threadControl_setEventMode o st4 prevStepOn EI_SINGLE_STEP (some t)
            .ok { st := st5, err := eLoop
                  trace := tr0 ++ trA ++ trB ++ trC ++ [.monitorEnter .popFrEventLock]
                           ++ tr2 ++ tr3 ++ tr4 ++ [.monitorExit .popFrEventLock] ++ trD ++ trE }

/-- The asserted node invariant: toBeResumed and suspendOnStart never both
set. -/
def nodeOk (n : ThreadNode) : Prop :=
  ¬(n.toBeResumed = true ∧ n.suspendOnStart = true)

/-- Strengthened per-node well-formedness matching the documented meaning of
the fields: the count is nonnegative, and a node marked for resume has a
positive count (the count went from zero to one when the primitive suspend
succeeded and has not returned to zero). -/
def nodeWf (n : ThreadNode) : Prop :=
  nodeOk n ∧ (n.toBeResumed = true → 1 ≤ n.suspendCount) ∧ 0 ≤ n.suspendCount

/-- All tracked nodes of the state. -/
def allNodes (st : TCState) : List ThreadNode :=
  st.runningThreads ++ st.runningVThreads ++ st.otherThreads

/-- The claimed global invariant: every node satisfies nodeOk. -/
def stateOk (st : TCState) : Prop := ∀ n ∈ allNodes st, nodeOk n

/-- Global well-formedness: nonnegative nesting level and well-formed
nodes. -/
def stateWf (st : TCState) : Prop :=
  0 ≤ st.suspendAllCount ∧ ∀ n ∈ allNodes st, nodeWf n

/-- The platform lists hold platform threads and the vthread list holds
virtual threads. -/
def listsSeparated (st : TCState) : Prop :=
  (∀ n ∈ st.runningThreads, n.thread.isVirtual = false) ∧
  (∀ n ∈ st.runningVThreads, n.thread.isVirtual = true)

/-- Readiness of a batch-suspend request list: every listed thread is
tracked by a node that is not suspended, not deferred and not marked for
resume (the pre-filter of commonSuspendList guarantees this). -/
def reqReady (st : TCState) (ts : List JThread) : Prop :=
  ∀ t ∈ ts, ∃ n, findThreadAny st t = some n ∧ n.suspendCount = 0 ∧
    n.suspendOnStart = false ∧ n.toBeResumed = false

/-- Node component of an insertThread result. -/
def insertedNode (r : TCResult (TCState × ThreadNode × ListId)) : Option ThreadNode :=
  match r with
  | .ok (_, node, _) => some node
  | .fatal _ _ => none

/-- A platform thread used by the boundary scenarios. -/
def pt3 : JThread := ⟨3, false⟩

/-- State tracking pt3 with a fully resumed node (count zero) parked on
otherThreads. -/
def c5State : TCState := { emptyState with otherThreads := [ThreadNode.init pt3] }

/-- A debug-agent platform thread. -/
def pt9 : JThread := ⟨9, false⟩

/-- State with an outstanding suspendAll and pt9 registered as a debug
thread. -/
def c4State : TCState :=
  { emptyState with suspendAllCount := 1, debugThreads := [pt9] }

/-- The node insertThread creates for the fresh non-debug platform thread
pt3 in c4State (deferred suspend at the nesting count). -/
def c4Node : ThreadNode :=
  { ThreadNode.init pt3 with suspendCount := 1, suspendOnStart := true,
                             is_vthread := false }

/-- Value of a successful state operation (dummy on fatal). -/
def resOk (r : TCResult StateOpResult) : StateOpResult :=
  match r with
  | .ok v => v
  | .fatal _ _ => ⟨emptyState, .INTERNAL, []⟩

/-- The vt2 node of scenarioSuspended: suspended once by the suspendAll and
marked for resume. -/
def c10Node : ThreadNode :=
  { vtNode vt2 with suspendCount := 1, toBeResumed := true }

instance (n : ThreadNode) : Decidable (nodeOk n) :=
  inferInstanceAs (Decidable ¬(n.toBeResumed = true ∧ n.suspendOnStart = true))

instance (n : ThreadNode) : Decidable (nodeWf n) :=
  inferInstanceAs (Decidable (nodeOk n ∧ (n.toBeResumed = true → 1 ≤ n.suspendCount) ∧
    0 ≤ n.suspendCount))

instance (st : TCState) : Decidable (stateOk st) :=
  inferInstanceAs (Decidable (∀ n ∈ allNodes st, nodeOk n))

instance (st : TCState) : Decidable (stateWf st) :=
  inferInstanceAs (Decidable (0 ≤ st.suspendAllCount ∧ ∀ n ∈ allNodes st, nodeWf n))

instance (st : TCState) : Decidable (listsSeparated st) :=
  inferInstanceAs (Decidable ((∀ n ∈ st.runningThreads, n.thread.isVirtual = false) ∧
    (∀ n ∈ st.runningVThreads, n.thread.isVirtual = true)))

theorem nodeWf.toNodeOk {n : ThreadNode} (h : nodeWf n) : nodeOk n := h.1

theorem stateWf.toStateOk {st : TCState} (h : stateWf st) : stateOk st :=
  fun n hn => (h.2 n hn).1

theorem findInList_some {l : List ThreadNode} {t : JThread} {n : ThreadNode}
    (h : findInList l t = some n) : n ∈ l ∧ n.thread = t := by
  refine ⟨List.mem_of_find?_eq_some h, ?_⟩
  have := List.find?_some h
  simpa using this

theorem findInList_cons_ne {n : ThreadNode} {l : List ThreadNode} {t : JThread}
    (h : n.thread ≠ t) : findInList (n :: l) t = findInList l t := by
  simp [findInList, List.find?_cons_of_neg, h]

theorem findInList_cons_self {n : ThreadNode} {l : List ThreadNode} {t : JThread}
    (h : n.thread = t) : findInList (n :: l) t = some n := by
  simp [findInList, List.find?_cons_of_pos, h]

theorem updateInList_of_not_found {t : JThread} {f : ThreadNode → ThreadNode}
    {l : List ThreadNode} (h : findInList l t = none) : updateInList t f l = l := by
  induction l with
  | nil => rfl
  | cons n ns ih =>
    by_cases hn : n.thread = t
    · rw [findInList_cons_self hn] at h
      exact absurd h (by simp)
    · rw [findInList_cons_ne hn] at h
      simp [updateInList, hn, ih h]

theorem updateInList_mem {t : JThread} {f : ThreadNode → ThreadNode}
    {l : List ThreadNode} {m : ThreadNode} (hm : m ∈ updateInList t f l) :
    m ∈ l ∨ ∃ n, findInList l t = some n ∧ m = f n := by
  induction l with
  | nil => simp [updateInList] at hm
  | cons n ns ih =>
    by_cases hn : n.thread = t
    · rw [updateInList, if_pos hn] at hm
      rcases List.mem_cons.mp hm with h1 | h1
      · exact Or.inr ⟨n, findInList_cons_self hn, h1⟩
      · exact Or.inl (List.mem_cons_of_mem _ h1)
    · rw [updateInList, if_neg hn] at hm
      rcases List.mem_cons.mp hm with h1 | h1
      · exact Or.inl (h1 ▸ List.mem_cons_self _ _)
      · rcases ih h1 with h2 | ⟨n0, h2, h3⟩
        · exact Or.inl (List.mem_cons_of_mem _ h2)
        · exact Or.inr ⟨n0, by rw [findInList_cons_ne hn]; exact h2, h3⟩

theorem forall_updateInList {P : ThreadNode → Prop} {t : JThread}
    {f : ThreadNode → ThreadNode} {l : List ThreadNode}
    (hP : ∀ n ∈ l, P n)
    (hf : ∀ n, findInList l t = some n → P (f n)) :
    ∀ m ∈ updateInList t f l, P m := by
  intro m hm
  rcases updateInList_mem hm with h | ⟨n, h1, h2⟩
  · exact hP m h
  · exact h2 ▸ hf n h1

theorem findInList_updateInList_self {t : JThread} {f : ThreadNode → ThreadNode}
    {l : List ThreadNode} (hf : ∀ n, n.thread = t → (f n).thread = t) :
    findInList (updateInList t f l) t = (findInList l t).map f := by
  induction l with
  | nil => rfl
  | cons n ns ih =>
    by_cases hn : n.thread = t
    · rw [updateInList, if_pos hn, findInList_cons_self (hf n hn),
          findInList_cons_self hn]
      rfl
    · rw [updateInList, if_neg hn, findInList_cons_ne hn, findInList_cons_ne hn, ih]

theorem findInList_updateInList_ne {t t' : JThread} {f : ThreadNode → ThreadNode}
    {l : List ThreadNode} (ht : t' ≠ t) (hf : ∀ n, n.thread = t → (f n).thread = t) :
    findInList (updateInList t f l) t' = findInList l t' := by
  induction l with
  | nil => rfl
  | cons n ns ih =>
    by_cases hn : n.thread = t
    · have hne : (f n).thread ≠ t' := by rw [hf n hn]; exact fun h => ht h.symm
      rw [updateInList, if_pos hn, findInList_cons_ne hne,
          findInList_cons_ne (by rw [hn]; exact fun h => ht h.symm)]
    · rw [updateInList, if_neg hn]
      by_cases hn' : n.thread = t'
      · rw [findInList_cons_self hn', findInList_cons_self hn']
      · rw [findInList_cons_ne hn', findInList_cons_ne hn', ih]

theorem suspendThreadByNode_wf {n : ThreadNode} {e : JvmtiError} (h : nodeWf n) :
    nodeWf (suspendThreadByNode e n).node := by
  obtain ⟨hok, haux, hpos⟩ := h
  unfold suspendThreadByNode commonSuspendByNode
  by_cases hd : n.isDebugThread = true
  · simpa [hd] using ⟨hok, haux, hpos⟩
  · by_cases hs : n.suspendOnStart = true
    · have htbr : n.toBeResumed = false := by
        by_contra hc
        exact hok ⟨by simpa using hc, hs⟩
      simp only [hd, hs]
      simp [nodeWf, nodeOk, htbr]
      omega
    · by_cases hz : n.suspendCount = 0
      · have htbr : n.toBeResumed = false := by
          by_contra hc
          have := haux (by simpa using hc)
          omega
        by_cases he : e = .NONE
        · simp only [hd, hs, hz, he]
          simp [nodeWf, nodeOk, hs, hz, htbr]
        · by_cases hna : e = .THREAD_NOT_ALIVE
          · simp only [hd, hs, hz, he, hna]
            simp [nodeWf, nodeOk, hz, htbr]
          · simp only [hd, hs, hz]
            simp [nodeWf, nodeOk, he, hna, htbr, hs, hpos]
      · have hres : nodeWf { n with suspendCount := n.suspendCount + 1 } := by
          refine ⟨fun hc => hok hc, fun h1 => ?_, ?_⟩
          · have := haux h1
            simp only
            omega
          · simp only
            omega
        simpa only [hd, hs, hz, Bool.false_eq_true, if_false, if_neg] using hres

theorem deferredSuspendThreadByNode_ok {n : ThreadNode} {e : JvmtiError} (h : nodeOk n) :
    nodeOk (deferredSuspendThreadByNode e n).node := by
  unfold deferredSuspendThreadByNode commonSuspendByNode
  by_cases hd : n.isDebugThread = true
  · simpa [hd] using h
  · by_cases hc : 0 < n.suspendCount <;>
      simp [hd, hc, nodeOk]

theorem resumeThreadByNode_wf {n : ThreadNode} {e : JvmtiError} (h : nodeWf n) :
    nodeWf (resumeThreadByNode e n).node := by
  obtain ⟨thr, tbr, pend, dbg, sos, started, isv, pfe, pfp, pft, cei, cnt, stepm, fg, cle⟩ := n
  obtain ⟨hok, haux, hpos⟩ := h
  simp only [nodeOk] at hok
  simp only at haux hpos
  simp only [resumeThreadByNode]
  split_ifs with h1 h2 h3 h4
  · exact ⟨hok, haux, hpos⟩
  · refine ⟨?_, ?_, ?_⟩
    · show ¬((false : Bool) = true ∧ sos = true)
      simp
    · show (false : Bool) = true → (1 : ℤ) ≤ cnt - 1
      simp
    · show (0 : ℤ) ≤ cnt - 1
      omega
  · refine ⟨?_, ?_, ?_⟩
    · show ¬((false : Bool) = true ∧ sos = true)
      simp
    · show (false : Bool) = true → (1 : ℤ) ≤ cnt - 1
      simp
    · show (0 : ℤ) ≤ cnt - 1
      omega
  · refine ⟨?_, ?_, ?_⟩
    · show ¬(tbr = true ∧ sos = true)
      exact hok
    · show tbr = true → (1 : ℤ) ≤ cnt - 1
      intro hc
      have h5 := haux hc
      have h6 : ¬(cnt - 1 = 0) := fun hz => h3 ⟨hz, hc⟩
      omega
    · show (0 : ℤ) ≤ cnt - 1
      omega
  · exact ⟨hok, haux, hpos⟩

theorem resumeThreadByNode_ok {n : ThreadNode} {e : JvmtiError} (h : nodeOk n) :
    nodeOk (resumeThreadByNode e n).node := by
  obtain ⟨thr, tbr, pend, dbg, sos, started, isv, pfe, pfp, pft, cei, cnt, stepm, fg, cle⟩ := n
  simp only [nodeOk] at h
  simp only [resumeThreadByNode]
  split_ifs <;> simp_all [nodeOk]

theorem resumeCopyAccount_wf {n : ThreadNode} (h : nodeWf n) :
    nodeWf (resumeCopyAccount n) := by
  obtain ⟨hok, haux, hpos⟩ := h
  unfold resumeCopyAccount
  split_ifs with h1 h2 h3
  · exact ⟨hok, haux, hpos⟩
  · refine ⟨fun hc => hok ⟨hc.1, hc.2⟩, fun hc => ?_, by simp only; omega⟩
    simp only
    omega
  · refine ⟨fun hc => hok ⟨hc.1, hc.2⟩, fun hc => ?_, by simp only; omega⟩
    exact absurd ⟨hc, h3.2⟩ hok
  · exact ⟨hok, haux, hpos⟩

theorem resumeCopyCollect_node_eq (n : ThreadNode) :
    (resumeCopyCollect n).1 = resumeCopyAccount n := by
  unfold resumeCopyCollect resumeCopyAccount
  split_ifs <;> rfl

theorem hardResumeUpdate_ok (n : ThreadNode) : nodeOk (hardResumeUpdate n) := by
  intro hc
  simp [hardResumeUpdate] at hc

theorem resetHelper_wf (n : ThreadNode) : nodeWf (resetHelper n) := by
  refine ⟨fun hc => ?_, fun hc => ?_, ?_⟩ <;>
    simp_all [resetHelper]

theorem incrementSuspendCountHelper_wf {n : ThreadNode} (h : nodeWf n)
    (hs : n.suspendOnStart = false) : nodeWf (incrementSuspendCountHelper n) := by
  obtain ⟨hok, haux, hpos⟩ := h
  refine ⟨fun hc => ?_, fun hc => ?_, ?_⟩
  · rw [incrementSuspendCountHelper] at hc
    simp only at hc
    rw [hs] at hc
    exact absurd hc.2 (by simp)
  · simp only [incrementSuspendCountHelper]
    omega
  · simp only [incrementSuspendCountHelper]
    omega

theorem applySuspendListResult_wf {n : ThreadNode} {res : JvmtiError}
    (h0 : n.suspendCount = 0) (hs : n.suspendOnStart = false)
    (htbr : n.toBeResumed = false) : nodeWf (applySuspendListResult res n) := by
  unfold applySuspendListResult
  split_ifs <;>
    refine ⟨fun hc => ?_, fun hc => ?_, ?_⟩ <;>
    simp_all

theorem suspendThreadByNode_thread (e : JvmtiError) (n : ThreadNode) :
    (suspendThreadByNode e n).node.thread = n.thread := by
  simp only [suspendThreadByNode, commonSuspendByNode]
  split_ifs <;> rfl

theorem deferredSuspendThreadByNode_thread (e : JvmtiError) (n : ThreadNode) :
    (deferredSuspendThreadByNode e n).node.thread = n.thread := by
  simp only [deferredSuspendThreadByNode, commonSuspendByNode]
  split_ifs <;> rfl

theorem resumeThreadByNode_thread (e : JvmtiError) (n : ThreadNode) :
    (resumeThreadByNode e n).node.thread = n.thread := by
  simp only [resumeThreadByNode]
  split_ifs <;> rfl

theorem resumeCopyAccount_thread (n : ThreadNode) :
    (resumeCopyAccount n).thread = n.thread := by
  simp only [resumeCopyAccount]
  split_ifs <;> rfl

theorem applySuspendListResult_thread (res : JvmtiError) (n : ThreadNode) :
    (applySuspendListResult res n).thread = n.thread := by
  simp only [applySuspendListResult]
  split_ifs <;> rfl

theorem hardResumeUpdate_thread (n : ThreadNode) :
    (hardResumeUpdate n).thread = n.thread := rfl

theorem mem_allNodes_iff {st : TCState} {m : ThreadNode} :
    m ∈ allNodes st ↔
      m ∈ st.runningThreads ∨ m ∈ st.runningVThreads ∨ m ∈ st.otherThreads := by
  simp [allNodes, List.mem_append, or_assoc]

theorem forall_allNodes_updateList {P : ThreadNode → Prop} {st : TCState} {lid : ListId}
    {t : JThread} {f : ThreadNode → ThreadNode}
    (h : ∀ n ∈ allNodes st, P n)
    (hf : ∀ n, findInList (st.list lid) t = some n → P (f n)) :
    ∀ m ∈ allNodes (updateList st lid t f), P m := by
  intro m hm
  have hr : ∀ n ∈ st.runningThreads, P n := fun n hn =>
    h n (mem_allNodes_iff.mpr (Or.inl hn))
  have hv : ∀ n ∈ st.runningVThreads, P n := fun n hn =>
    h n (mem_allNodes_iff.mpr (Or.inr (Or.inl hn)))
  have ho : ∀ n ∈ st.otherThreads, P n := fun n hn =>
    h n (mem_allNodes_iff.mpr (Or.inr (Or.inr hn)))
  cases lid <;>
    rcases mem_allNodes_iff.mp hm with h1 | h1 | h1 <;>
    first
      | exact forall_updateInList (by assumption) hf m h1
      | exact hr m h1
      | exact hv m h1
      | exact ho m h1

theorem forall_allNodes_updateAnywhere {P : ThreadNode → Prop} {st : TCState}
    {t : JThread} {f : ThreadNode → ThreadNode}
    (h : ∀ n ∈ allNodes st, P n)
    (hf : ∀ n, findThreadAny st t = some n → P (f n)) :
    ∀ m ∈ allNodes (updateAnywhere st t f), P m := by
  intro m hm
  have hr : ∀ n ∈ st.runningThreads, P n := fun n hn =>
    h n (mem_allNodes_iff.mpr (Or.inl hn))
  have hv : ∀ n ∈ st.runningVThreads, P n := fun n hn =>
    h n (mem_allNodes_iff.mpr (Or.inr (Or.inl hn)))
  have ho : ∀ n ∈ st.otherThreads, P n := fun n hn =>
    h n (mem_allNodes_iff.mpr (Or.inr (Or.inr hn)))
  unfold updateAnywhere at hm
  by_cases hfr : (findInList st.runningThreads t).isSome
  · rw [if_pos hfr] at hm
    rcases mem_allNodes_iff.mp hm with h1 | h1 | h1
    · refine forall_updateInList hr (fun n hn => hf n ?_) m h1
      unfold findThreadAny
      rw [hn]
    · exact hv m h1
    · exact ho m h1
  · rw [if_neg hfr] at hm
    have hfr' : findInList st.runningThreads t = none := by
      cases hx : findInList st.runningThreads t
      · rfl
      · rw [hx] at hfr
        simp at hfr
    by_cases hfv : (findInList st.runningVThreads t).isSome
    · rw [if_pos hfv] at hm
      rcases mem_allNodes_iff.mp hm with h1 | h1 | h1
      · exact hr m h1
      · refine forall_updateInList hv (fun n hn => hf n ?_) m h1
        unfold findThreadAny
        rw [hfr', hn]
      · exact ho m h1
    · rw [if_neg hfv] at hm
      have hfv' : findInList st.runningVThreads t = none := by
        cases hx : findInList st.runningVThreads t
        · rfl
        · rw [hx] at hfv
          simp at hfv
      rcases mem_allNodes_iff.mp hm with h1 | h1 | h1
      · exact hr m h1
      · exact hv m h1
      · refine forall_updateInList ho (fun n hn => hf n ?_) m h1
        unfold findThreadAny
        rw [hfr', hfv']
        exact hn

theorem forall_allNodes_updateRunning {P : ThreadNode → Prop} {st : TCState}
    {t : JThread} {f : ThreadNode → ThreadNode}
    (h : ∀ n ∈ allNodes st, P n)
    (hf : ∀ n, findRunningThread st t = some n → P (f n)) :
    ∀ m ∈ allNodes (updateRunning st t f), P m := by
  intro m hm
  have hr : ∀ n ∈ st.runningThreads, P n := fun n hn =>
    h n (mem_allNodes_iff.mpr (Or.inl hn))
  have hv : ∀ n ∈ st.runningVThreads, P n := fun n hn =>
    h n (mem_allNodes_iff.mpr (Or.inr (Or.inl hn)))
  have ho : ∀ n ∈ st.otherThreads, P n := fun n hn =>
    h n (mem_allNodes_iff.mpr (Or.inr (Or.inr hn)))
  unfold updateRunning at hm
  by_cases hvt : isVThread t = true
  · rw [if_pos hvt] at hm
    rcases mem_allNodes_iff.mp hm with h1 | h1 | h1
    · exact hr m h1
    · refine forall_updateInList hv (fun n hn => hf n ?_) m h1
      unfold findRunningThread
      rw [if_pos hvt]
      exact hn
    · exact ho m h1
  · rw [if_neg hvt] at hm
    rcases mem_allNodes_iff.mp hm with h1 | h1 | h1
    · refine forall_updateInList hr (fun n hn => hf n ?_) m h1
      unfold findRunningThread
      rw [if_neg hvt]
      exact hn
    · exact hv m h1
    · exact ho m h1

theorem mem_allNodes_addNodeTo {st : TCState} {lid : ListId} {n m : ThreadNode}
    (hm : m ∈ allNodes (addNodeTo st lid n)) : m = n ∨ m ∈ allNodes st := by
  cases lid <;>
    rcases mem_allNodes_iff.mp hm with h1 | h1 | h1 <;>
    first
      | (rcases List.mem_cons.mp h1 with h2 | h2
         · exact Or.inl h2
         · exact Or.inr (mem_allNodes_iff.mpr (by tauto)))
      | exact Or.inr (mem_allNodes_iff.mpr (by tauto))

theorem findThreadAny_run_some {st : TCState} {t : JThread} {n : ThreadNode}
    (h : findInList st.runningThreads t = some n) : findThreadAny st t = some n := by
  unfold findThreadAny
  rw [h]

theorem findThreadAny_rv_some {st : TCState} {t : JThread} {n : ThreadNode}
    (h1 : findInList st.runningThreads t = none)
    (h : findInList st.runningVThreads t = some n) : findThreadAny st t = some n := by
  unfold findThreadAny
  rw [h1, h]

theorem findThreadAny_other {st : TCState} {t : JThread}
    (h1 : findInList st.runningThreads t = none)
    (h2 : findInList st.runningVThreads t = none) :
    findThreadAny st t = findInList st.otherThreads t := by
  unfold findThreadAny
  rw [h1, h2]

theorem findThreadAny_updateAnywhere_self {st : TCState} {t : JThread}
    {f : ThreadNode → ThreadNode} {n : ThreadNode}
    (h : findThreadAny st t = some n) (hf : ∀ m, m.thread = t → (f m).thread = t) :
    findThreadAny (updateAnywhere st t f) t = some (f n) := by
  cases hr : findInList st.runningThreads t with
  | some n0 =>
    rw [findThreadAny_run_some hr] at h
    injection h with h
    subst h
    have hsome : (findInList st.runningThreads t).isSome := by rw [hr]; rfl
    unfold updateAnywhere
    rw [if_pos hsome]
    refine findThreadAny_run_some ?_
    show findInList (updateInList t f st.runningThreads) t = _
    rw [findInList_updateInList_self hf, hr]
    rfl
  | none =>
    have hnone1 : ¬(findInList st.runningThreads t).isSome := by rw [hr]; simp
    cases hv : findInList st.runningVThreads t with
    | some n0 =>
      rw [findThreadAny_rv_some hr hv] at h
      injection h with h
      subst h
      have hsome : (findInList st.runningVThreads t).isSome := by rw [hv]; rfl
      unfold updateAnywhere
      rw [if_neg hnone1, if_pos hsome]
      refine findThreadAny_rv_some hr ?_
      show findInList (updateInList t f st.runningVThreads) t = _
      rw [findInList_updateInList_self hf, hv]
      rfl
    | none =>
      have hnone2 : ¬(findInList st.runningVThreads t).isSome := by rw [hv]; simp
      rw [findThreadAny_other hr hv] at h
      unfold updateAnywhere
      rw [if_neg hnone1, if_neg hnone2]
      have heq := @findThreadAny_other
        { st with otherThreads := updateInList t f st.otherThreads } t hr hv
      rw [heq]
      show findInList (updateInList t f st.otherThreads) t = _
      rw [findInList_updateInList_self hf, h]
      rfl

theorem findThreadAny_updateAnywhere_ne {st : TCState} {t t' : JThread}
    {f : ThreadNode → ThreadNode} (ht : t' ≠ t)
    (hf : ∀ m, m.thread = t → (f m).thread = t) :
    findThreadAny (updateAnywhere st t f) t' = findThreadAny st t' := by
  unfold updateAnywhere
  split_ifs with h1 h2 <;> unfold findThreadAny <;> simp only <;>
    rw [findInList_updateInList_ne ht hf]

theorem findThreadAny_updateList_ne {st : TCState} {lid : ListId} {t t' : JThread}
    {f : ThreadNode → ThreadNode} (ht : t' ≠ t)
    (hf : ∀ m, m.thread = t → (f m).thread = t) :
    findThreadAny (updateList st lid t f) t' = findThreadAny st t' := by
  cases lid <;> unfold updateList TCState.setList TCState.list findThreadAny <;> simp only <;>
    rw [findInList_updateInList_ne ht hf]

theorem findThreadAny_addNodeTo_ne {st : TCState} {lid : ListId} {n : ThreadNode}
    {t' : JThread} (h : n.thread ≠ t') :
    findThreadAny (addNodeTo st lid n) t' = findThreadAny st t' := by
  cases lid <;> unfold addNodeTo TCState.setList TCState.list findThreadAny <;> simp only <;>
    rw [findInList_cons_ne h]

theorem findRunningThread_updateRunning_self {st : TCState} {t : JThread}
    {f : ThreadNode → ThreadNode} {n : ThreadNode}
    (h : findRunningThread st t = some n) (hf : ∀ m, m.thread = t → (f m).thread = t) :
    findRunningThread (updateRunning st t f) t = some (f n) := by
  unfold findRunningThread updateRunning at *
  by_cases hv : isVThread t = true
  · rw [if_pos hv] at h ⊢
    rw [if_pos hv]
    show findInList (updateInList t f st.runningVThreads) t = _
    rw [findInList_updateInList_self hf, h]
    rfl
  · rw [if_neg hv] at h ⊢
    rw [if_neg hv]
    show findInList (updateInList t f st.runningThreads) t = _
    rw [findInList_updateInList_self hf, h]
    rfl

theorem findRunningThread_updateRunning_ne {st : TCState} {t t' : JThread}
    {f : ThreadNode → ThreadNode} (ht : t' ≠ t)
    (hf : ∀ m, m.thread = t → (f m).thread = t) :
    findRunningThread (updateRunning st t f) t' = findRunningThread st t' := by
  unfold findRunningThread updateRunning
  by_cases hv : isVThread t = true <;>
    by_cases hv' : isVThread t' = true <;>
    simp only [hv, hv', if_true, if_false, Bool.false_eq_true] <;>
    first
      | rw [show findInList (updateInList t f st.runningVThreads) t' =
              findInList st.runningVThreads t' from findInList_updateInList_ne ht hf]
      | rw [show findInList (updateInList t f st.runningThreads) t' =
              findInList st.runningThreads t' from findInList_updateInList_ne ht hf]

theorem insertThread_cases {vstate : JThread → JvmtiError × Nat} {st : TCState}
    {lid : ListId} {t : JThread} {st1 : TCState} {node : ThreadNode} {lid2 : ListId}
    (h : insertThread vstate st lid t = .ok (st1, node, lid2)) :
    (st1 = st ∧ lid2 = lid ∧ findInList (st.list lid) t = some node)
  ∨ (st1 = addNodeTo st lid2 node ∧ node.thread = t ∧ node.toBeResumed = false ∧
     (node.suspendCount = 0 ∨ node.suspendCount = st.suspendAllCount)) := by
  unfold insertThread at h
  cases hfind : findInList (st.list lid) t with
  | some n0 =>
    rw [hfind] at h
    simp only [TCResult.ok.injEq, Prod.mk.injEq] at h
    obtain ⟨rfl, rfl, rfl⟩ := h
    exact Or.inl ⟨rfl, rfl, rfl⟩
  | none =>
    rw [hfind] at h
    simp only at h
    split_ifs at h with h1 h2 h3 h4 h5
    all_goals simp at h
    all_goals
      obtain ⟨h6, h7, h8⟩ := h
      subst h6
      subst h7
      subst h8
      first
        | exact Or.inr ⟨rfl, rfl, rfl, Or.inr rfl⟩
        | exact Or.inr ⟨rfl, rfl, rfl, Or.inl rfl⟩

theorem list_subset_allNodes (st : TCState) (lid : ListId) :
    ∀ n ∈ st.list lid, n ∈ allNodes st := by
  cases lid <;> intro n hn <;> exact mem_allNodes_iff.mpr (by tauto)

theorem findRunningThread_mem {st : TCState} {t : JThread} {n : ThreadNode}
    (h : findRunningThread st t = some n) : n ∈ allNodes st := by
  unfold findRunningThread at h
  split_ifs at h
  · exact mem_allNodes_iff.mpr (Or.inr (Or.inl (findInList_some h).1))
  · exact mem_allNodes_iff.mpr (Or.inl (findInList_some h).1)

theorem findThreadAny_mem {st : TCState} {t : JThread} {n : ThreadNode}
    (h : findThreadAny st t = some n) : n ∈ allNodes st := by
  unfold findThreadAny at h
  cases h1 : findInList st.runningThreads t with
  | some m =>
    rw [h1] at h
    injection h with h
    subst h
    exact mem_allNodes_iff.mpr (Or.inl (findInList_some h1).1)
  | none =>
    rw [h1] at h
    cases h2 : findInList st.runningVThreads t with
    | some m =>
      rw [h2] at h
      injection h with h
      subst h
      exact mem_allNodes_iff.mpr (Or.inr (Or.inl (findInList_some h2).1))
    | none =>
      rw [h2] at h
      exact mem_allNodes_iff.mpr (Or.inr (Or.inr (findInList_some h).1))

theorem updateList_suspendAllCount (st : TCState) (lid : ListId) (t : JThread)
    (f : ThreadNode → ThreadNode) :
    (updateList st lid t f).suspendAllCount = st.suspendAllCount := by
  cases lid <;> rfl

theorem addNodeTo_suspendAllCount (st : TCState) (lid : ListId) (n : ThreadNode) :
    (addNodeTo st lid n).suspendAllCount = st.suspendAllCount := by
  cases lid <;> rfl

theorem updateAnywhere_suspendAllCount (st : TCState) (t : JThread)
    (f : ThreadNode → ThreadNode) :
    (updateAnywhere st t f).suspendAllCount = st.suspendAllCount := by
  unfold updateAnywhere
  split_ifs <;> rfl

theorem updateRunning_suspendAllCount (st : TCState) (t : JThread)
    (f : ThreadNode → ThreadNode) :
    (updateRunning st t f).suspendAllCount = st.suspendAllCount := by
  unfold updateRunning
  split_ifs <;> rfl

theorem commonSuspend_wf {o : Oracle} {st : TCState} {t : JThread} {d : Bool}
    {r : StateOpResult} (hwf : stateWf st) (h : commonSuspend o st t d = .ok r) :
    stateOk r.st ∧ (d = false → stateWf r.st) ∧
      r.st.suspendAllCount = st.suspendAllCount := by
  unfold commonSuspend at h
  simp only at h
  have main :
      ∀ (st1 : TCState) (node : ThreadNode) (lid : ListId),
        stateWf st1 → nodeWf node → st1.suspendAllCount = st.suspendAllCount →
        r = { st := updateList st1 lid t
                (fun _ => (if d then deferredSuspendThreadByNode (o.suspendThreadErr t) node
                           else suspendThreadByNode (o.suspendThreadErr t) node).node)
              err := (if d then deferredSuspendThreadByNode (o.suspendThreadErr t) node
                      else suspendThreadByNode (o.suspendThreadErr t) node).err
              trace := (if d then deferredSuspendThreadByNode (o.suspendThreadErr t) node
                        else suspendThreadByNode (o.suspendThreadErr t) node).trace } →
        stateOk r.st ∧ (d = false → stateWf r.st) ∧
          r.st.suspendAllCount = st.suspendAllCount := by
    intro st1 node lid hwf1 hnode hcnt hr
    subst hr
    cases d
    · have hwfn : nodeWf (suspendThreadByNode (o.suspendThreadErr t) node).node :=
        suspendThreadByNode_wf hnode
      simp only [Bool.false_eq_true, if_false]
      refine ⟨?_, fun _ => ⟨?_, ?_⟩, ?_⟩
      · exact forall_allNodes_updateList (fun n hn => (hwf1.2 n hn).1) (fun n _ => hwfn.1)
      · rw [updateList_suspendAllCount]
        exact hwf1.1
      · exact forall_allNodes_updateList hwf1.2 (fun n _ => hwfn)
      · rw [updateList_suspendAllCount]
        exact hcnt
    · have hokn : nodeOk (deferredSuspendThreadByNode (o.suspendThreadErr t) node).node :=
        deferredSuspendThreadByNode_ok hnode.1
      simp only [if_true]
      refine ⟨?_, fun hfalse => absurd hfalse (by simp), ?_⟩
      · exact forall_allNodes_updateList (fun n hn => (hwf1.2 n hn).1) (fun n _ => hokn)
      · rw [updateList_suspendAllCount]
        exact hcnt
  cases hfr : findRunningThread st t with
  | some n =>
    rw [hfr] at h
    simp only [TCResult.ok.injEq] at h
    exact main st n _ hwf (hwf.2 n (findRunningThread_mem hfr)) rfl h.symm
  | none =>
    rw [hfr] at h
    simp only at h
    have handleIns : ∀ (lidArg : ListId) (st1 : TCState) (node : ThreadNode) (lid : ListId),
        insertThread o.vthreadState st lidArg t = .ok (st1, node, lid) →
        ({ st := updateList st1 lid t
             (fun _ => (if d = true then deferredSuspendThreadByNode (o.suspendThreadErr t) node
                        else suspendThreadByNode (o.suspendThreadErr t) node).node)
           err := (if d = true then deferredSuspendThreadByNode (o.suspendThreadErr t) node
                   else suspendThreadByNode (o.suspendThreadErr t) node).err
           trace := (if d = true then deferredSuspendThreadByNode (o.suspendThreadErr t) node
                     else suspendThreadByNode (o.suspendThreadErr t) node).trace } :
          StateOpResult) = r →
        stateOk r.st ∧ (d = false → stateWf r.st) ∧
          r.st.suspendAllCount = st.suspendAllCount := by
      intro lidArg st1 node lid hins heq
      rcases insertThread_cases hins with ⟨he1, he2, hfind⟩ | ⟨he1, he2, htbr, hcount⟩
      · refine main st1 node lid ?_ ?_ ?_ heq.symm
        · rw [he1]
          exact hwf
        · exact hwf.2 node (list_subset_allNodes st _ node (findInList_some hfind).1)
        · rw [he1]
      · have hnodewf : nodeWf node := by
          refine ⟨fun hc => by rw [htbr] at hc; exact absurd hc.1 (by simp),
                  fun hc => by rw [htbr] at hc; exact absurd hc (by simp), ?_⟩
          rcases hcount with hc | hc <;>
            first
              | (rw [hc]; exact hwf.1)
              | exact hc ▸ le_refl (0 : ℤ)
        refine main st1 node lid ?_ hnodewf ?_ heq.symm
        · rw [he1]
          refine ⟨?_, ?_⟩
          · rw [addNodeTo_suspendAllCount]
            exact hwf.1
          · intro m hm
            rcases mem_allNodes_addNodeTo hm with rfl | hm2
            · exact hnodewf
            · exact hwf.2 m hm2
        · rw [he1, addNodeTo_suspendAllCount]
    by_cases hv : isVThread t = true
    · rw [if_pos hv] at h
      cases hins : insertThread o.vthreadState st ListId.runningV t with
      | fatal e m =>
        rw [hins] at h
        simp at h
      | ok v =>
        obtain ⟨st1, node, lid⟩ := v
        rw [hins] at h
        simp only [TCResult.ok.injEq] at h
        exact handleIns _ st1 node lid hins h
    · rw [if_neg hv] at h
      cases hins : insertThread o.vthreadState st ListId.otherL t with
      | fatal e m =>
        rw [hins] at h
        simp at h
      | ok v =>
        obtain ⟨st1, node, lid⟩ := v
        rw [hins] at h
        simp only [TCResult.ok.injEq] at h
        exact handleIns _ st1 node lid hins h

theorem mem_removeResumed {l : List ThreadNode} {m : ThreadNode}
    (h : m ∈ removeResumed l) : m ∈ l :=
  List.mem_of_mem_filter h

theorem resumeCopyAccount_ok {n : ThreadNode} (h : nodeOk n) :
    nodeOk (resumeCopyAccount n) := by
  unfold resumeCopyAccount
  split_ifs <;> exact fun hc => h ⟨hc.1, hc.2⟩

theorem resumeCopyPass_mem {l : List ThreadNode} {m : ThreadNode}
    (hm : m ∈ (resumeCopyPass l).1) : ∃ n ∈ l, m = (resumeCopyCollect n).1 := by
  induction l with
  | nil => simp [resumeCopyPass] at hm
  | cons n ns ih =>
    rw [resumeCopyPass] at hm
    simp only at hm
    rcases List.mem_cons.mp hm with h1 | h1
    · exact ⟨n, List.mem_cons_self _ _, h1⟩
    · obtain ⟨n0, hn0, h2⟩ := ih h1
      exact ⟨n0, List.mem_cons_of_mem _ hn0, h2⟩

theorem stateOk_removeResumed {st : TCState} (h : stateOk st) :
    stateOk { st with otherThreads := removeResumed st.otherThreads } := by
  intro m hm
  rcases mem_allNodes_iff.mp hm with h1 | h1 | h1
  · exact h m (mem_allNodes_iff.mpr (Or.inl h1))
  · exact h m (mem_allNodes_iff.mpr (Or.inr (Or.inl h1)))
  · exact h m (mem_allNodes_iff.mpr (Or.inr (Or.inr (mem_removeResumed h1))))

theorem threadControl_suspendThread_ok {o : Oracle} {st : TCState} {t : JThread}
    {d : Bool} {r : StateOpResult} (hwf : stateWf st)
    (h : threadControl_suspendThread o st t d = .ok r) : stateOk r.st := by
  unfold threadControl_suspendThread at h
  cases hcs : commonSuspend o st t d with
  | fatal e m =>
    rw [hcs] at h
    simp at h
  | ok r0 =>
    rw [hcs] at h
    simp only [TCResult.ok.injEq] at h
    rw [← h]
    exact (commonSuspend_wf hwf hcs).1

theorem commonResume_ok {o : Oracle} {st : TCState} {t : JThread} (hok : stateOk st) :
    stateOk (commonResume o st t).st := by
  unfold commonResume
  cases hft : findThreadAny st t with
  | none => exact hok
  | some n =>
    exact forall_allNodes_updateAnywhere hok
      (fun n0 _ => resumeThreadByNode_ok (hok n (findThreadAny_mem hft)))

theorem threadControl_resumeThread_ok {o : Oracle} {st : TCState} {t : JThread}
    {u : Bool} (hok : stateOk st) :
    stateOk (threadControl_resumeThread o st t u).st := by
  unfold threadControl_resumeThread
  exact stateOk_removeResumed (commonResume_ok hok)

theorem updateRunning_otherThreads (st : TCState) (t : JThread)
    (f : ThreadNode → ThreadNode) :
    (updateRunning st t f).otherThreads = st.otherThreads := by
  unfold updateRunning
  split_ifs <;> rfl

theorem applyHardResumes_ok {req : List JThread} {st st' : TCState}
    (h : stateOk st) (hr : applyHardResumes st req = .ok st') :
    stateOk st' ∧ st'.suspendAllCount = st.suspendAllCount ∧
      st'.otherThreads = st.otherThreads := by
  induction req generalizing st with
  | nil =>
    unfold applyHardResumes at hr
    simp only [TCResult.ok.injEq] at hr
    subst hr
    exact ⟨h, rfl, rfl⟩
  | cons t ts ih =>
    unfold applyHardResumes at hr
    cases hfr : findRunningThread st t with
    | none =>
      rw [hfr] at hr
      simp at hr
    | some n =>
      rw [hfr] at hr
      have hok1 : stateOk (updateRunning st t hardResumeUpdate) :=
        forall_allNodes_updateRunning h (fun n0 _ => hardResumeUpdate_ok n0)
      have := ih hok1 hr
      refine ⟨this.1, ?_, ?_⟩
      · rw [this.2.1, updateRunning_suspendAllCount]
      · rw [this.2.2, updateRunning_otherThreads]

theorem commonResumeList_ok {o : Oracle} {st : TCState} {r : StateOpResult}
    (h : stateOk st) (hcl : commonResumeList o st = .ok r) :
    stateOk r.st ∧ r.st.suspendAllCount = st.suspendAllCount ∧
      r.st.otherThreads = st.otherThreads := by
  unfold commonResumeList at hcl
  by_cases hz : st.runningThreads.countP (fun n => resumeCountPred n)
      + st.runningVThreads.countP (fun n => resumeCountPred n) = 0
  · rw [if_pos hz] at hcl
    simp only [TCResult.ok.injEq] at hcl
    subst hcl
    refine ⟨?_, rfl, rfl⟩
    intro m hm
    rcases mem_allNodes_iff.mp hm with h1 | h1 | h1
    · obtain ⟨n0, hn0, rfl⟩ := List.mem_map.mp h1
      exact resumeCopyAccount_ok (h n0 (mem_allNodes_iff.mpr (Or.inl hn0)))
    · obtain ⟨n0, hn0, rfl⟩ := List.mem_map.mp h1
      exact resumeCopyAccount_ok (h n0 (mem_allNodes_iff.mpr (Or.inr (Or.inl hn0))))
    · exact h m (mem_allNodes_iff.mpr (Or.inr (Or.inr h1)))
  · rw [if_neg hz] at hcl
    simp only at hcl
    have hok1 : stateOk { st with runningThreads := (resumeCopyPass st.runningThreads).1,
                                  runningVThreads := (resumeCopyPass st.runningVThreads).1 } := by
      intro m hm
      rcases mem_allNodes_iff.mp hm with h1 | h1 | h1
      · obtain ⟨n0, hn0, rfl⟩ := resumeCopyPass_mem h1
        rw [resumeCopyCollect_node_eq]
        exact resumeCopyAccount_ok (h n0 (mem_allNodes_iff.mpr (Or.inl hn0)))
      · obtain ⟨n0, hn0, rfl⟩ := resumeCopyPass_mem h1
        rw [resumeCopyCollect_node_eq]
        exact resumeCopyAccount_ok (h n0 (mem_allNodes_iff.mpr (Or.inr (Or.inl hn0))))
      · exact h m (mem_allNodes_iff.mpr (Or.inr (Or.inr h1)))
    cases happ : applyHardResumes
        { st with runningThreads := (resumeCopyPass st.runningThreads).1,
                  runningVThreads := (resumeCopyPass st.runningVThreads).1 }
        ((resumeCopyPass st.runningThreads).2 ++ (resumeCopyPass st.runningVThreads).2) with
    | fatal e m =>
      rw [happ] at hcl
      simp at hcl
    | ok st2 =>
      rw [happ] at hcl
      simp only [TCResult.ok.injEq] at hcl
      subst hcl
      have := applyHardResumes_ok hok1 happ
      exact ⟨this.1, this.2.1, this.2.2⟩

theorem resumeOtherLoop_ok {o : Oracle} {l : List ThreadNode} (h : ∀ n ∈ l, nodeOk n) :
    ∀ m ∈ (resumeOtherLoop o l).1, nodeOk m := by
  induction l with
  | nil => simp [resumeOtherLoop]
  | cons n ns ih =>
    rw [resumeOtherLoop]
    simp only
    split_ifs with he <;>
      intro m hm <;>
      rcases List.mem_cons.mp hm with h1 | h1
    · exact h1 ▸ resumeThreadByNode_ok (h n (List.mem_cons_self _ _))
    · exact ih (fun n0 hn0 => h n0 (List.mem_cons_of_mem _ hn0)) m h1
    · exact h1 ▸ resumeThreadByNode_ok (h n (List.mem_cons_self _ _))
    · exact h m (List.mem_cons_of_mem _ h1)

theorem stateOk_parts {rt rv ot : List ThreadNode} {c : Int} {dbg : List JThread}
    {dem : List (Bool × Nat × JThread)} {pf : Bool}
    (hr : ∀ n ∈ rt, nodeOk n) (hv : ∀ n ∈ rv, nodeOk n) (ho : ∀ n ∈ ot, nodeOk n) :
    stateOk (TCState.mk rt rv ot c dbg dem pf) := by
  intro m hm
  rcases mem_allNodes_iff.mp hm with h1 | h1 | h1
  · exact hr m h1
  · exact hv m h1
  · exact ho m h1

theorem stateOk.run {st : TCState} (h : stateOk st) : ∀ n ∈ st.runningThreads, nodeOk n :=
  fun n hn => h n (mem_allNodes_iff.mpr (Or.inl hn))

theorem stateOk.rv {st : TCState} (h : stateOk st) : ∀ n ∈ st.runningVThreads, nodeOk n :=
  fun n hn => h n (mem_allNodes_iff.mpr (Or.inr (Or.inl hn)))

theorem stateOk.other {st : TCState} (h : stateOk st) : ∀ n ∈ st.otherThreads, nodeOk n :=
  fun n hn => h n (mem_allNodes_iff.mpr (Or.inr (Or.inr hn)))

theorem resumeAllFinish_ok {o : Oracle} {tr1 : List Action} {r0 : StateOpResult}
    (h : stateOk r0.st) : stateOk (resumeAllFinish o tr1 r0).st := by
  unfold resumeAllFinish
  simp only
  split_ifs with hc1 hc2 hc2 <;>
    first
      | exact h
      | exact stateOk_parts h.run h.rv h.other
      | exact stateOk_parts h.run h.rv
          (fun m hm => resumeOtherLoop_ok h.other m (mem_removeResumed hm))

theorem threadControl_resumeAll_ok {o : Oracle} {vsup : Bool} {st : TCState}
    {r : StateOpResult} (h : stateOk st)
    (hra : threadControl_resumeAll o vsup st = .ok r) : stateOk r.st := by
  unfold threadControl_resumeAll at hra
  simp only at hra
  split_ifs at hra with h1 h2
  · cases hcrl : commonResumeList o st with
    | fatal e m =>
      rw [hcrl] at hra
      simp at hra
    | ok r0 =>
      rw [hcrl] at hra
      simp only [TCResult.ok.injEq] at hra
      rw [← hra]
      exact resumeAllFinish_ok (commonResumeList_ok h hcrl).1
  · cases hcrl : commonResumeList o st with
    | fatal e m =>
      rw [hcrl] at hra
      simp at hra
    | ok r0 =>
      rw [hcrl] at hra
      simp only [TCResult.ok.injEq] at hra
      rw [← hra]
      exact resumeAllFinish_ok (commonResumeList_ok h hcrl).1

theorem bumpCount_wf {n : ThreadNode} (h : nodeWf n) :
    nodeWf { n with suspendCount := n.suspendCount + 1 } := by
  obtain ⟨h1, h2, h3⟩ := h
  refine ⟨h1, fun _ => ?_, ?_⟩
  · show (1 : Int) ≤ n.suspendCount + 1
    omega
  · show (0 : Int) ≤ n.suspendCount + 1
    omega

theorem forall_thread_updateInList {P : JThread → Prop} {t : JThread}
    {f : ThreadNode → ThreadNode} {l : List ThreadNode}
    (hf : ∀ n, (f n).thread = n.thread) (h : ∀ n ∈ l, P n.thread) :
    ∀ n ∈ updateInList t f l, P n.thread := by
  intro m hm
  rcases updateInList_mem hm with h1 | ⟨n0, h1, h2⟩
  · exact h m h1
  · rw [h2, hf]
    exact h n0 (findInList_some h1).1

theorem listsSeparated_updateList {st : TCState} {lid : ListId} {t : JThread}
    {f : ThreadNode → ThreadNode} (hf : ∀ n, (f n).thread = n.thread)
    (h : listsSeparated st) : listsSeparated (updateList st lid t f) := by
  obtain ⟨h1, h2⟩ := h
  cases lid
  · refine ⟨?_, h2⟩
    show ∀ n ∈ updateInList t f st.runningThreads, n.thread.isVirtual = false
    exact forall_thread_updateInList (P := fun u => u.isVirtual = false) hf h1
  · refine ⟨h1, ?_⟩
    show ∀ n ∈ updateInList t f st.runningVThreads, n.thread.isVirtual = true
    exact forall_thread_updateInList (P := fun u => u.isVirtual = true) hf h2
  · exact ⟨h1, h2⟩

theorem findInList_virtual_none {l : List ThreadNode} {t : JThread}
    (hall : ∀ n ∈ l, n.thread.isVirtual = true) (ht : t.isVirtual = false) :
    findInList l t = none := by
  induction l with
  | nil => rfl
  | cons n ns ih =>
    have hne : n.thread ≠ t := by
      intro hc
      have hv := hall n (List.mem_cons_self _ _)
      rw [hc, ht] at hv
      exact absurd hv (by simp)
    rw [findInList_cons_ne hne]
    exact ih (fun m hm => hall m (List.mem_cons_of_mem _ hm))

theorem stateWf_updateList_bump {st : TCState} {lid : ListId} {t : JThread}
    (hwf : stateWf st) :
    stateWf (updateList st lid t (fun n => { n with suspendCount := n.suspendCount + 1 })) := by
  refine ⟨by rw [updateList_suspendAllCount]; exact hwf.1, ?_⟩
  refine forall_allNodes_updateList hwf.2 (fun n hn => ?_)
  exact bumpCount_wf (hwf.2 n (list_subset_allNodes st lid n (findInList_some hn).1))

theorem insertThread_otherL_lid {vstate : JThread → JvmtiError × Nat} {st : TCState}
    {t : JThread} {st' : TCState} {node : ThreadNode} {lid2 : ListId}
    (h : insertThread vstate st ListId.otherL t = .ok (st', node, lid2)) :
    lid2 = ListId.otherL := by
  unfold insertThread at h
  cases hf : findInList (st.list ListId.otherL) t with
  | some n0 =>
    rw [hf] at h
    simp only [TCResult.ok.injEq, Prod.mk.injEq] at h
    exact h.2.2.symm
  | none =>
    rw [hf] at h
    simp only at h
    rw [if_pos (show ¬(ListId.otherL = ListId.runningV) from by decide)] at h
    simp only [TCResult.ok.injEq, Prod.mk.injEq] at h
    exact h.2.2.symm

theorem suspendListStep_spec {st : TCState} {t : JThread} {st1 : TCState} {c : Option JThread}
    (h : suspendListStep st t = (st1, c)) (hwf : stateWf st) (hsep : listsSeparated st)
    (ht : t.isVirtual = false) :
    stateWf st1 ∧ listsSeparated st1 ∧ st1.suspendAllCount = st.suspendAllCount ∧
      (∀ t', t' ≠ t → findThreadAny st1 t' = findThreadAny st t') ∧
      (∀ t0, c = some t0 → t0 = t ∧ ∃ n, findThreadAny st1 t = some n ∧
        n.suspendCount = 0 ∧ n.suspendOnStart = false ∧ n.toBeResumed = false) := by
  unfold suspendListStep at h
  cases hrun : findInList st.runningThreads t with
  | some node =>
    rw [hrun] at h
    simp only at h
    have hmem : node ∈ allNodes st :=
      mem_allNodes_iff.mpr (Or.inl (findInList_some hrun).1)
    split_ifs at h with hdbg hcond
    · simp only [Prod.mk.injEq] at h
      obtain ⟨rfl, rfl⟩ := h
      exact ⟨hwf, hsep, rfl, fun _ _ => rfl, fun t0 h0 => nomatch h0⟩
    · simp only [Prod.mk.injEq] at h
      obtain ⟨rfl, rfl⟩ := h
      refine ⟨stateWf_updateList_bump hwf, listsSeparated_updateList (fun _ => rfl) hsep,
        by rw [updateList_suspendAllCount],
        fun t' hne => findThreadAny_updateList_ne hne (fun m hm => hm),
        fun t0 h0 => nomatch h0⟩
    · simp only [Prod.mk.injEq] at h
      obtain ⟨rfl, rfl⟩ := h
      push_neg at hcond
      obtain ⟨hsos, hcnt⟩ := hcond
      have hnwf := hwf.2 node hmem
      have hcnt0 : node.suspendCount = 0 := by
        have := hnwf.2.2
        omega
      have htbr : node.toBeResumed = false := by
        cases htb : node.toBeResumed
        · rfl
        · have := hnwf.2.1 htb
          omega
      refine ⟨hwf, hsep, rfl, fun _ _ => rfl, ?_⟩
      intro t0 h0
      injection h0 with h0
      exact ⟨h0.symm, node, findThreadAny_run_some hrun, hcnt0, by simpa using hsos, htbr⟩
  | none =>
    rw [hrun] at h
    simp only at h
    cases hins : insertThread (fun _ => (.NONE, 0)) st ListId.otherL t with
    | fatal e m =>
      rw [hins] at h
      simp only [Prod.mk.injEq] at h
      obtain ⟨rfl, rfl⟩ := h
      exact ⟨hwf, hsep, rfl, fun _ _ => rfl, fun t0 h0 => nomatch h0⟩
    | ok z =>
      rcases z with ⟨st', node, lid2⟩
      have hlid : lid2 = ListId.otherL := insertThread_otherL_lid hins
      subst hlid
      rw [hins] at h
      simp only at h
      have hbase : stateWf st' ∧ listsSeparated st' ∧
          st'.suspendAllCount = st.suspendAllCount ∧
          (∀ t', t' ≠ t → findThreadAny st' t' = findThreadAny st t') ∧
          findThreadAny st' t = some node ∧ node ∈ allNodes st' := by
        rcases insertThread_cases hins with ⟨he1, _, hfind⟩ | ⟨he1, hth, htbr, hcnt⟩
        · subst he1
          have hrv := findInList_virtual_none hsep.2 ht
          refine ⟨hwf, hsep, rfl, fun _ _ => rfl, ?_, ?_⟩
          · rw [findThreadAny_other hrun hrv]
            exact hfind
          · exact mem_allNodes_iff.mpr (Or.inr (Or.inr (findInList_some hfind).1))
        · have hnwf : nodeWf node := by
            refine ⟨fun hc => by rw [htbr] at hc; exact absurd hc.1 (by simp),
              fun hc => absurd hc (by rw [htbr]; simp), ?_⟩
            rcases hcnt with hc | hc
            · rw [hc]
            · rw [hc]
              exact hwf.1
          subst he1
          have hrv : findInList st.runningVThreads t = none :=
            findInList_virtual_none hsep.2 ht
          refine ⟨?_, hsep, addNodeTo_suspendAllCount st _ node, ?_, ?_, ?_⟩
          · refine ⟨by rw [addNodeTo_suspendAllCount]; exact hwf.1, fun m hm => ?_⟩
            rcases mem_allNodes_addNodeTo hm with h1 | h1
            · exact h1 ▸ hnwf
            · exact hwf.2 m h1
          · intro t' hne
            exact findThreadAny_addNodeTo_ne (by rw [hth]; exact fun hc => hne hc.symm)
          · refine findThreadAny_other ?_ ?_ |>.trans ?_
            · show findInList st.runningThreads t = none
              exact hrun
            · show findInList st.runningVThreads t = none
              exact hrv
            · show findInList (node :: st.otherThreads) t = some node
              exact findInList_cons_self hth
          · exact mem_allNodes_iff.mpr (Or.inr (Or.inr (List.mem_cons_self _ _)))
      obtain ⟨hwf', hsep', hsa', hne', hfind', hmem'⟩ := hbase
      split_ifs at h with hdbg hcond
      · simp only [Prod.mk.injEq] at h
        obtain ⟨rfl, rfl⟩ := h
        exact ⟨hwf', hsep', hsa', hne', fun t0 h0 => nomatch h0⟩
      · simp only [Prod.mk.injEq] at h
        obtain ⟨rfl, rfl⟩ := h
        refine ⟨stateWf_updateList_bump hwf', listsSeparated_updateList (fun _ => rfl) hsep',
          by rw [updateList_suspendAllCount]; exact hsa',
          fun t' hne =>
            (findThreadAny_updateList_ne
              (f := fun n => { n with suspendCount := n.suspendCount + 1 })
              hne (fun m hm => hm)).trans (hne' t' hne),
          fun t0 h0 => nomatch h0⟩
      · simp only [Prod.mk.injEq] at h
        obtain ⟨rfl, rfl⟩ := h
        push_neg at hcond
        obtain ⟨hsos, hcnt⟩ := hcond
        have hnwf := hwf'.2 node hmem'
        have hcnt0 : node.suspendCount = 0 := by
          have := hnwf.2.2
          omega
        have htbr : node.toBeResumed = false := by
          cases htb : node.toBeResumed
          · rfl
          · have := hnwf.2.1 htb
            omega
        refine ⟨hwf', hsep', hsa', hne', ?_⟩
        intro t0 h0
        injection h0 with h0
        exact ⟨h0.symm, node, hfind', hcnt0, by simpa using hsos, htbr⟩

theorem suspendListPass1_spec {l : List JThread} :
    ∀ {st : TCState}, stateWf st → listsSeparated st → l.Nodup →
      (∀ t ∈ l, t.isVirtual = false) →
      stateWf (suspendListPass1 st l).1 ∧
      listsSeparated (suspendListPass1 st l).1 ∧
      (suspendListPass1 st l).1.suspendAllCount = st.suspendAllCount ∧
      (∀ t', (∀ t ∈ l, t' ≠ t) →
        findThreadAny (suspendListPass1 st l).1 t' = findThreadAny st t') ∧
      reqReady (suspendListPass1 st l).1 (suspendListPass1 st l).2 ∧
      (suspendListPass1 st l).2.Nodup ∧
      (∀ t0 ∈ (suspendListPass1 st l).2, t0 ∈ l) := by
  induction l with
  | nil =>
    intro st hwf hsep _ _
    refine ⟨hwf, hsep, rfl, fun _ _ => rfl, ?_, List.nodup_nil, ?_⟩
    · intro t0 h0
      exact absurd h0 (by simp [suspendListPass1])
    · intro t0 h0
      exact absurd h0 (by simp [suspendListPass1])
  | cons t ts ih =>
    intro st hwf hsep hnd hplat
    rcases hstep : suspendListStep st t with ⟨st1, c⟩
    rcases hrest : suspendListPass1 st1 ts with ⟨st2, req⟩
    obtain ⟨hwf1, hsep1, hsa1, hfind1, hready1⟩ :=
      suspendListStep_spec hstep hwf hsep (hplat t (List.mem_cons_self _ _))
    have htnin : t ∉ ts := (List.nodup_cons.mp hnd).1
    have hIH := ih hwf1 hsep1 (List.nodup_cons.mp hnd).2
      (fun u hu => hplat u (List.mem_cons_of_mem _ hu))
    rw [hrest] at hIH
    obtain ⟨hwf2, hsep2, hsa2, hfind2, hready2, hnd2, hsub2⟩ := hIH
    cases c with
    | none =>
      have hgoal : suspendListPass1 st (t :: ts) = (st2, req) := by
        simp only [suspendListPass1, hstep, hrest, List.nil_append]
      rw [hgoal]
      refine ⟨hwf2, hsep2, hsa2.trans hsa1, ?_, hready2, hnd2,
        fun t0 h0 => List.mem_cons_of_mem _ (hsub2 t0 h0)⟩
      intro t' hall
      exact (hfind2 t' (fun u hu => hall u (List.mem_cons_of_mem _ hu))).trans
        (hfind1 t' (hall t (List.mem_cons_self _ _)))
    | some t0 =>
      obtain ⟨ht0, n, hn, f1, f2, f3⟩ := hready1 t0 rfl
      subst ht0
      have hgoal : suspendListPass1 st (t0 :: ts) = (st2, t0 :: req) := by
        simp only [suspendListPass1, hstep, hrest, List.cons_append, List.nil_append]
      rw [hgoal]
      have hfpres : findThreadAny st2 t0 = some n := by
        rw [hfind2 t0 (fun v hv he => htnin (he ▸ hv))]
        exact hn
      refine ⟨hwf2, hsep2, hsa2.trans hsa1, ?_, ?_, ?_, ?_⟩
      · intro t' hall
        exact (hfind2 t' (fun u hu => hall u (List.mem_cons_of_mem _ hu))).trans
          (hfind1 t' (hall t0 (List.mem_cons_self _ _)))
      · intro u hu
        rcases List.mem_cons.mp hu with rfl | h1
        · exact ⟨n, hfpres, f1, f2, f3⟩
        · exact hready2 u h1
      · exact List.nodup_cons.mpr ⟨fun hc2 => htnin (hsub2 t0 hc2), hnd2⟩
      · intro u h0
        rcases List.mem_cons.mp h0 with rfl | h1
        · exact List.mem_cons_self _ _
        · exact List.mem_cons_of_mem _ (hsub2 u h1)

theorem suspendListPass2_wf {resFn : Nat → JvmtiError} {ts : List JThread} :
    ∀ {st : TCState} {i : Nat} {st2 : TCState}, stateWf st → reqReady st ts → ts.Nodup →
      suspendListPass2 resFn st ts i = .ok st2 → stateWf st2 := by
  induction ts with
  | nil =>
    intro st i st2 hwf _ _ h
    simp only [suspendListPass2, TCResult.ok.injEq] at h
    exact h ▸ hwf
  | cons t ts ih =>
    intro st i st2 hwf hready hnd h
    obtain ⟨n, hn, hcnt, hsos, htbr⟩ := hready t (List.mem_cons_self _ _)
    rw [suspendListPass2] at h
    rw [hn] at h
    refine ih ?_ ?_ (List.nodup_cons.mp hnd).2 h
    · refine ⟨by rw [updateAnywhere_suspendAllCount]; exact hwf.1, ?_⟩
      refine forall_allNodes_updateAnywhere hwf.2 (fun m hm => ?_)
      rw [hn] at hm
      injection hm with hm
      subst hm
      exact applySuspendListResult_wf hcnt hsos htbr
    · intro u hu
      obtain ⟨m, hm, f1, f2, f3⟩ := hready u (List.mem_cons_of_mem _ hu)
      have hne : u ≠ t := fun hc => (List.nodup_cons.mp hnd).1 (hc ▸ hu)
      refine ⟨m, ?_, f1, f2, f3⟩
      rw [findThreadAny_updateAnywhere_ne hne
        (fun m0 hm0 => by rw [applySuspendListResult_thread]; exact hm0)]
      exact hm

theorem commonSuspendList_wf {o : Oracle} {st : TCState} {l : List JThread}
    {r : StateOpResult} (hwf : stateWf st) (hsep : listsSeparated st)
    (hnd : l.Nodup) (hplat : ∀ t ∈ l, t.isVirtual = false)
    (h : commonSuspendList o st l = .ok r) : stateWf r.st := by
  unfold commonSuspendList at h
  rcases hp1 : suspendListPass1 st l with ⟨st1, req⟩
  have hspec := suspendListPass1_spec hwf hsep hnd hplat
  rw [hp1] at hspec h
  obtain ⟨hwf1, _, _, _, hready1, hnd1, _⟩ := hspec
  simp only at h
  split_ifs at h with hemp
  · simp only [TCResult.ok.injEq] at h
    rw [← h]
    exact hwf1
  · cases hp2 : suspendListPass2 o.suspendListResults st1 req 0 with
    | fatal e m =>
      rw [hp2] at h
      simp at h
    | ok st2 =>
      rw [hp2] at h
      simp only [TCResult.ok.injEq] at h
      rw [← h]
      exact suspendListPass2_wf hwf1 hready1 hnd1 hp2

theorem suspendAllOtherLoop_wf {o : Oracle} {threads : List JThread} {ts : List JThread} :
    ∀ {st st2 : TCState} {err2 : JvmtiError} {tr2 : List Action}, stateWf st →
      suspendAllOtherLoop o threads st ts = .ok (st2, err2, tr2) → stateOk st2 := by
  induction ts with
  | nil =>
    intro st st2 err2 tr2 hwf h
    simp only [suspendAllOtherLoop, TCResult.ok.injEq, Prod.mk.injEq] at h
    exact h.1 ▸ hwf.toStateOk
  | cons t ts ih =>
    intro st st2 err2 tr2 hwf h
    simp only [suspendAllOtherLoop] at h
    split_ifs at h with hc
    · exact ih hwf h
    · cases hcs : commonSuspend o st t false with
      | fatal e m =>
        rw [hcs] at h
        simp at h
      | ok r =>
        rw [hcs] at h
        simp only at h
        obtain ⟨hok1, hwf1, _⟩ := commonSuspend_wf hwf hcs
        split_ifs at h with herr
        · cases hloop : suspendAllOtherLoop o threads r.st ts with
          | fatal e m =>
            rw [hloop] at h
            simp at h
          | ok z =>
            rcases z with ⟨st3, err3, tr3⟩
            rw [hloop] at h
            simp only [TCResult.ok.injEq, Prod.mk.injEq] at h
            exact h.1 ▸ ih (hwf1 rfl) hloop
        · simp only [TCResult.ok.injEq, Prod.mk.injEq] at h
          exact h.1 ▸ hok1

theorem suspendAllTail_ok {o : Oracle} {st1 : TCState} {tr1 : List Action}
    {r : StateOpResult} (hwf : stateWf st1) (hsep : listsSeparated st1)
    (hnd : o.allThreads.Nodup) (hplat : ∀ t ∈ o.allThreads, t.isVirtual = false)
    (h : (match commonSuspendList o st1 o.allThreads with
          | TCResult.fatal e m => TCResult.fatal e m
          | TCResult.ok r0 =>
            if r0.err ≠ .NONE then
              TCResult.ok
                ⟨r0.st, r0.err, getLocksTrace ++ tr1 ++ r0.trace ++ releaseLocksTrace⟩
            else
              match suspendAllOtherLoop o o.allThreads r0.st
                      (r0.st.otherThreads.map (fun n => n.thread)) with
              | TCResult.fatal e m => TCResult.fatal e m
              | TCResult.ok (st3, err3, tr3) =>
                let (st4, tr4) :=
                  if err3 = .NONE then
                    ({ st3 with suspendAllCount := st3.suspendAllCount + 1 },
                     [Action.pinAllRefs])
                  else (st3, [])
                TCResult.ok
                  ⟨st4, err3,
                   getLocksTrace ++ tr1 ++ r0.trace ++ tr3 ++ tr4 ++ releaseLocksTrace⟩) =
         TCResult.ok r) :
    stateOk r.st := by
  cases hcl : commonSuspendList o st1 o.allThreads with
  | fatal e m =>
    rw [hcl] at h
    simp at h
  | ok r0 =>
    rw [hcl] at h
    have hwf0 := commonSuspendList_wf hwf hsep hnd hplat hcl
    simp only at h
    split_ifs at h with herr
    · simp only [TCResult.ok.injEq] at h
      rw [← h]
      exact hwf0.toStateOk
    · cases hloop : suspendAllOtherLoop o o.allThreads r0.st
          (r0.st.otherThreads.map (fun n => n.thread)) with
      | fatal e m =>
        rw [hloop] at h
        simp at h
      | ok z =>
        rcases z with ⟨st3, err3, tr3⟩
        rw [hloop] at h
        simp only at h
        have hok3 := suspendAllOtherLoop_wf hwf0 hloop
        split_ifs at h with herr3
        · simp only [TCResult.ok.injEq] at h
          rw [← h]
          intro m hm
          exact hok3 m hm
        · simp only [TCResult.ok.injEq] at h
          rw [← h]
          exact hok3

theorem threadControl_suspendAll_ok {o : Oracle} {vsup : Bool} {st : TCState}
    {r : StateOpResult} (hwf : stateWf st) (hsep : listsSeparated st)
    (hnd : o.allThreads.Nodup) (hplat : ∀ t ∈ o.allThreads, t.isVirtual = false)
    (hsos : ∀ n ∈ st.runningVThreads, n.suspendOnStart = false)
    (h : threadControl_suspendAll o vsup st = .ok r) : stateOk r.st := by
  have hincwf : stateWf { st with
      runningVThreads := st.runningVThreads.map incrementSuspendCountHelper } := by
    refine ⟨hwf.1, fun m hm => ?_⟩
    rcases mem_allNodes_iff.mp hm with h1 | h1 | h1
    · exact hwf.2 m (mem_allNodes_iff.mpr (Or.inl h1))
    · obtain ⟨n0, hn0, rfl⟩ := List.mem_map.mp h1
      exact incrementSuspendCountHelper_wf
        (hwf.2 n0 (mem_allNodes_iff.mpr (Or.inr (Or.inl hn0)))) (hsos n0 hn0)
    · exact hwf.2 m (mem_allNodes_iff.mpr (Or.inr (Or.inr h1)))
  have hincsep : listsSeparated { st with
      runningVThreads := st.runningVThreads.map incrementSuspendCountHelper } := by
    refine ⟨hsep.1, fun m hm => ?_⟩
    obtain ⟨n0, hn0, rfl⟩ := List.mem_map.mp hm
    exact hsep.2 n0 hn0
  unfold threadControl_suspendAll at h
  simp only at h
  split_ifs at h with h1 h2 h3
  · exact suspendAllTail_ok hincwf hincsep hnd hplat h
  · exact suspendAllTail_ok hincwf hincsep hnd hplat h
  · exact suspendAllTail_ok hwf hsep hnd hplat h

theorem threadControl_reset_ok {o : Oracle} {vsup rem : Bool} {st : TCState}
    {r : StateOpResult} (h : threadControl_reset o vsup rem st = .ok r) :
    stateWf r.st := by
  have hmap : ∀ l : List ThreadNode, ∀ n ∈ l.map resetHelper, nodeWf n := by
    intro l n hn
    obtain ⟨m, _, rfl⟩ := List.mem_map.mp hn
    exact resetHelper_wf m
  have hwf1 : stateWf
      { st with runningThreads := st.runningThreads.map resetHelper,
                otherThreads := removeResumed (st.otherThreads.map resetHelper),
                runningVThreads := st.runningVThreads.map resetHelper,
                deferredEventModes := [], suspendAllCount := 0 } := by
    refine ⟨le_refl 0, fun m hm => ?_⟩
    rcases mem_allNodes_iff.mp hm with h1 | h1 | h1
    · exact hmap _ m h1
    · exact hmap _ m h1
    · exact hmap _ m (mem_removeResumed h1)
  unfold threadControl_reset at h
  simp only at h
  split_ifs at h with h1 h2 h3
  · simp only [TCResult.ok.injEq] at h
    rw [← h]
    exact ⟨hwf1.1, fun m hm => hwf1.2 m (by
      rcases mem_allNodes_iff.mp hm with hx | hx | hx
      · exact mem_allNodes_iff.mpr (Or.inl hx)
      · exact mem_allNodes_iff.mpr (Or.inr (Or.inl hx))
      · exact mem_allNodes_iff.mpr (Or.inr (Or.inr hx)))⟩
  · simp only [TCResult.ok.injEq] at h
    rw [← h]
    refine ⟨le_refl 0, fun m hm => ?_⟩
    rcases mem_allNodes_iff.mp hm with hx | hx | hx
    · exact hmap _ m hx
    · exact absurd hx (by simp)
    · exact hmap _ m (mem_removeResumed hx)
  · simp only [TCResult.ok.injEq] at h
    rw [← h]
    exact hwf1
  · simp only [TCResult.ok.injEq] at h
    rw [← h]
    refine ⟨le_refl 0, fun m hm => ?_⟩
    rcases mem_allNodes_iff.mp hm with hx | hx | hx
    · exact hmap _ m hx
    · exact absurd hx (by simp)
    · exact hmap _ m (mem_removeResumed hx)

/-- C1: for a node that is not a debug thread, the per-thread suspend
behaves as specified: with suspendOnStart already set it only increments
the count and succeeds; at count zero the SuspendThread primitive is
called, a THREAD_NOT_ALIVE result is converted to success with
suspendOnStart set, and a successful primitive marks the node for resume;
and every successful outcome increments the count by exactly one. -/
theorem claim_C1 {e : JvmtiError} {n : ThreadNode} (hdbg : n.isDebugThread = false) :
    (n.suspendOnStart = true →
      suspendThreadByNode e n =
        { node := { n with suspendCount := n.suspendCount + 1 }, err := .NONE,
          trace := [] }) ∧
    (n.suspendOnStart = false → n.suspendCount = 0 →
      Action.SuspendThread n.thread ∈ (suspendThreadByNode e n).trace ∧
      (e = .THREAD_NOT_ALIVE →
        (suspendThreadByNode e n).err = .NONE ∧
        (suspendThreadByNode e n).node.suspendOnStart = true) ∧
      (e = .NONE → (suspendThreadByNode e n).node.toBeResumed = true)) ∧
    ((suspendThreadByNode e n).err = .NONE →
      (suspendThreadByNode e n).node.suspendCount = n.suspendCount + 1) := by
  refine ⟨?_, ?_, ?_⟩
  · intro hsos
    simp [suspendThreadByNode, hdbg, hsos]
  · intro hsos hcnt
    by_cases he : e = .THREAD_NOT_ALIVE
    · subst he
      simp [suspendThreadByNode, commonSuspendByNode, hdbg, hsos, hcnt]
    · by_cases he2 : e = .NONE
      · subst he2
        simp [suspendThreadByNode, commonSuspendByNode, hdbg, hsos, hcnt]
      · simp [suspendThreadByNode, commonSuspendByNode, hdbg, hsos, hcnt, he, he2]
  · intro hsucc
    by_cases hsos : n.suspendOnStart = true
    · simp [suspendThreadByNode, hdbg, hsos]
    · by_cases hcnt : n.suspendCount = 0
      · by_cases he : e = .THREAD_NOT_ALIVE
        · subst he
          simp [suspendThreadByNode, commonSuspendByNode, hdbg, hsos, hcnt]
        · by_cases he2 : e = .NONE
          · subst he2
            simp [suspendThreadByNode, commonSuspendByNode, hdbg, hsos, hcnt]
          · exfalso
            rw [show (suspendThreadByNode e n).err = e from by
              simp [suspendThreadByNode, commonSuspendByNode, hdbg, hsos, hcnt, he]] at hsucc
            exact he2 hsucc
      · simp [suspendThreadByNode, hdbg, hsos, hcnt]

/-- Witness for C1: the SuspendThread primitive succeeding on a fresh
platform-thread node at count zero marks it for resume and leaves the
count at one. -/
theorem claim_C1_witness :
    (ThreadNode.init pt3).isDebugThread = false ∧
    ((ThreadNode.init pt3).suspendOnStart = false → (ThreadNode.init pt3).suspendCount = 0 →
      Action.SuspendThread (ThreadNode.init pt3).thread ∈
        (suspendThreadByNode JvmtiError.NONE (ThreadNode.init pt3)).trace ∧
      (JvmtiError.NONE = JvmtiError.THREAD_NOT_ALIVE →
        (suspendThreadByNode JvmtiError.NONE (ThreadNode.init pt3)).err = .NONE ∧
        (suspendThreadByNode JvmtiError.NONE (ThreadNode.init pt3)).node.suspendOnStart =
          true) ∧
      (JvmtiError.NONE = JvmtiError.NONE →
        (suspendThreadByNode JvmtiError.NONE (ThreadNode.init pt3)).node.toBeResumed =
          true)) :=
  ⟨by decide, (claim_C1 (by decide)).2.1⟩

/-- C7: the deferred suspend of a non-debug node clears suspendOnStart
unconditionally, calls the suspend primitive only when the count is
positive, rolls the count back by one when that primitive fails, returning
the primitive's error, and is a successful no-op otherwise. -/
theorem claim_C7 {e : JvmtiError} {n : ThreadNode} (hdbg : n.isDebugThread = false) :
    (deferredSuspendThreadByNode e n).node.suspendOnStart = false ∧
    (0 < n.suspendCount →
      Action.SuspendThread n.thread ∈ (deferredSuspendThreadByNode e n).trace ∧
      (deferredSuspendThreadByNode e n).err = e ∧
      (e ≠ .NONE →
        (deferredSuspendThreadByNode e n).node.suspendCount = n.suspendCount - 1)) ∧
    (¬0 < n.suspendCount →
      (deferredSuspendThreadByNode e n).err = .NONE ∧
      (∀ a ∈ (deferredSuspendThreadByNode e n).trace, a.isPrimitive = false) ∧
      (deferredSuspendThreadByNode e n).node = { n with suspendOnStart := false }) := by
  by_cases hcnt : 0 < n.suspendCount
  · by_cases he : e = .NONE
    · subst he
      simp [deferredSuspendThreadByNode, commonSuspendByNode, hdbg, hcnt]
    · simp [deferredSuspendThreadByNode, commonSuspendByNode, hdbg, hcnt, he]
  · refine ⟨?_, fun hc => absurd hc hcnt, fun _ => ?_⟩ <;>
      simp [deferredSuspendThreadByNode, hdbg, hcnt, Action.isPrimitive]

/-- Witness for C7: a failing primitive on a node with count one rolls the
count back to zero and surfaces the error. -/
theorem claim_C7_witness :
    ({ ThreadNode.init pt3 with suspendCount := 1 } : ThreadNode).isDebugThread = false ∧
    (0 < ({ ThreadNode.init pt3 with suspendCount := 1 } : ThreadNode).suspendCount ∧
      ((deferredSuspendThreadByNode JvmtiError.INTERNAL
          { ThreadNode.init pt3 with suspendCount := 1 }).err = JvmtiError.INTERNAL ∧
        (JvmtiError.INTERNAL ≠ JvmtiError.NONE →
          (deferredSuspendThreadByNode JvmtiError.INTERNAL
              { ThreadNode.init pt3 with suspendCount := 1 }).node.suspendCount =
            ({ ThreadNode.init pt3 with suspendCount := 1 } : ThreadNode).suspendCount
              - 1))) :=
  ⟨by decide, by decide,
    ((claim_C7 (by decide)).2.1 (by decide)).2.1,
    ((claim_C7 (by decide)).2.1 (by decide)).2.2⟩

theorem updateInList_self_id {t : JThread} {n : ThreadNode} {l : List ThreadNode}
    (h : findInList l t = some n) : updateInList t (fun _ => n) l = l := by
  induction l with
  | nil => exact absurd h (by simp [findInList])
  | cons m ms ih =>
    by_cases hm : m.thread = t
    · rw [findInList_cons_self hm] at h
      injection h with h
      rw [updateInList, if_pos hm, h]
    · rw [findInList_cons_ne hm] at h
      rw [updateInList, if_neg hm, ih h]

theorem updateAnywhere_self_id {st : TCState} {t : JThread} {n : ThreadNode}
    (h : findThreadAny st t = some n) : updateAnywhere st t (fun _ => n) = st := by
  unfold findThreadAny at h
  unfold updateAnywhere
  cases hr : findInList st.runningThreads t with
  | some n0 =>
    rw [hr] at h
    simp only at h
    injection h with h
    subst h
    rw [if_pos (show (some n0).isSome = true from rfl), updateInList_self_id hr]
  | none =>
    rw [hr] at h
    simp only at h
    rw [if_neg (by simp)]
    cases hv : findInList st.runningVThreads t with
    | some n0 =>
      rw [hv] at h
      simp only at h
      injection h with h
      subst h
      rw [if_pos (show (some n0).isSome = true from rfl), updateInList_self_id hv]
    | none =>
      rw [hv] at h
      simp only at h
      rw [if_neg (by simp), updateInList_self_id h]

/-- Counterexample to C5 as stated: a fully resumed node parked on
otherThreads (count zero) is freed by the sweep at the end of
threadControl_resumeThread, so the operation is not free of node changes:
the thread stops being tracked. -/
theorem claim_C5_counterexample :
    findThreadAny c5State pt3 = some (ThreadNode.init pt3) ∧
    (ThreadNode.init pt3).suspendCount = 0 ∧
    (threadControl_resumeThread oracleOk c5State pt3 false).err = .NONE ∧
    findThreadAny (threadControl_resumeThread oracleOk c5State pt3 false).st pt3 =
      none := by
  decide

/-- C5 amended: resuming a thread whose node has count zero (or that has no
node) succeeds without any runtime primitive and leaves both running lists
untouched; the only state change is the removeResumed sweep that drops
count-zero nodes from otherThreads. -/
theorem claim_C5 {o : Oracle} {st : TCState} {t : JThread} {d : Bool}
    (h : ∀ n, findThreadAny st t = some n → n.suspendCount = 0) :
    (threadControl_resumeThread o st t d).err = .NONE ∧
    (∀ a ∈ (threadControl_resumeThread o st t d).trace, a.isPrimitive = false) ∧
    (threadControl_resumeThread o st t d).st.runningThreads = st.runningThreads ∧
    (threadControl_resumeThread o st t d).st.runningVThreads = st.runningVThreads ∧
    (threadControl_resumeThread o st t d).st.otherThreads =
      removeResumed st.otherThreads := by
  have hcr : commonResume o st t = { st := st, err := .NONE, trace := [] } := by
    unfold commonResume
    cases hf : findThreadAny st t with
    | none => rfl
    | some n =>
      have hcnt := h n hf
      have hnode : resumeThreadByNode (o.resumeThreadErr t) n =
          { node := n, err := .NONE, trace := [] } := by
        have hlt : ¬0 < n.suspendCount := by omega
        unfold resumeThreadByNode
        rw [if_neg hlt]
        split_ifs <;> rfl
      simp only [hnode]
      rw [updateAnywhere_self_id hf]
  unfold threadControl_resumeThread
  rw [hcr]
  refine ⟨rfl, ?_, rfl, rfl, rfl⟩
  intro a ha
  cases d
  · simp only [if_true, if_false, Bool.false_eq_true, List.append_nil, List.mem_append,
      List.mem_cons, List.not_mem_nil, or_false, false_or, or_assoc] at ha
    rcases ha with rfl | rfl | rfl | rfl <;> rfl
  · simp only [if_true, if_false, List.append_nil, List.mem_append,
      List.mem_cons, List.not_mem_nil, or_false, false_or, or_assoc] at ha
    rcases ha with rfl | rfl | rfl | rfl | rfl <;> rfl

/-- Witness for C5: the amended statement at the count-zero scenario. -/
theorem claim_C5_witness :
    (∀ n, findThreadAny c5State pt3 = some n → n.suspendCount = 0) ∧
    (threadControl_resumeThread oracleOk c5State pt3 false).err = .NONE ∧
    (threadControl_resumeThread oracleOk c5State pt3 false).st.otherThreads =
      removeResumed c5State.otherThreads :=
  have hyp : ∀ n, findThreadAny c5State pt3 = some n → n.suspendCount = 0 := by
    intro n hn
    have he : findThreadAny c5State pt3 = some (ThreadNode.init pt3) := by decide
    rw [he] at hn
    injection hn with hn
    rw [← hn]
    decide
  ⟨hyp, (claim_C5 hyp).1, (claim_C5 hyp).2.2.2.2⟩

/-- C6: the suspend-count query returns the tracked node's count; 0 for an
untracked platform thread; for an untracked virtual thread 0 when the
runtime reports state 0 and suspendAllCount otherwise; and every non-fatal
return carries the outer JVMTI_ERROR_NONE status, not the inner
virtual-thread-state error. -/
theorem claim_C6 {o : Oracle} {st : TCState} {t : JThread} :
    (∀ n, findRunningThread st t = some n →
      threadControl_suspendCount o st t = .ok (.NONE, n.suspendCount)) ∧
    (findRunningThread st t = none → ∀ n, findInList st.otherThreads t = some n →
      threadControl_suspendCount o st t = .ok (.NONE, n.suspendCount)) ∧
    (findRunningThread st t = none → findInList st.otherThreads t = none →
      (t.isVirtual = false → threadControl_suspendCount o st t = .ok (.NONE, 0)) ∧
      (t.isVirtual = true → (o.vthreadState t).1 = .NONE →
        threadControl_suspendCount o st t =
          .ok (.NONE, if (o.vthreadState t).2 = 0 then 0 else st.suspendAllCount))) := by
  refine ⟨?_, ?_, ?_⟩
  · intro n hn
    simp [threadControl_suspendCount, hn]
  · intro h1 n h2
    simp [threadControl_suspendCount, h1, h2]
  · intro h1 h2
    constructor
    · intro hv
      simp [threadControl_suspendCount, h1, h2, isVThread, hv]
    · intro hv he
      rcases hvs : o.vthreadState t with ⟨verr, vst⟩
      rw [hvs] at he
      simp only at he
      subst he
      by_cases h0 : vst = 0 <;>
        simp [threadControl_suspendCount, h1, h2, isVThread, hv, hvs, h0]

/-- Witness for C6: an untracked platform thread reports count 0 with the
outer NONE status. -/
theorem claim_C6_witness :
    findRunningThread emptyState pt3 = none ∧
    findInList emptyState.otherThreads pt3 = none ∧
    pt3.isVirtual = false ∧
    threadControl_suspendCount oracleOk emptyState pt3 = .ok (.NONE, 0) :=
  ⟨by decide, by decide, by decide,
    ((@claim_C6 oracleOk emptyState pt3).2.2 (by decide) (by decide)).1 (by decide)⟩

/-- C8: the co-located-event comparison is true exactly when the thread has
a running node whose stored record has a nonzero event index, the same
method and location, and the identical class object; it is false for a
thread with no running node, false after clearCLEInfo, and after a
saveCLEInfo it matches exactly the saved tuple (with the class matching
only when the global reference was produced). -/
theorem claim_C8 {st : TCState} {t : JThread} :
    (findRunningThread st t = none →
      ∀ c m l, threadControl_cmpCLEInfo st t c m l = false) ∧
    (∀ n, findRunningThread st t = some n →
      (∀ c m l, threadControl_cmpCLEInfo st t c m l = true ↔
        (n.cleInfo.ei ≠ 0 ∧ n.cleInfo.method = m ∧ n.cleInfo.location = l ∧
          n.cleInfo.clazz = some c)) ∧
      (∀ refOk ei c0 m0 l0 c m l,
        threadControl_cmpCLEInfo
            (threadControl_saveCLEInfo refOk st t ei c0 m0 l0) t c m l = true ↔
          (ei ≠ 0 ∧ m0 = m ∧ l0 = l ∧ refOk = true ∧ c0 = c)) ∧
      (∀ c m l,
        threadControl_cmpCLEInfo (threadControl_clearCLEInfo st t) t c m l = false)) := by
  constructor
  · intro h c m l
    simp [threadControl_cmpCLEInfo, h]
  · intro n hn
    refine ⟨?_, ?_, ?_⟩
    · intro c m l
      simp [threadControl_cmpCLEInfo, hn]
    · intro refOk ei c0 m0 l0 c m l
      have hs : findRunningThread
          (threadControl_saveCLEInfo refOk st t ei c0 m0 l0) t =
          some { n with cleInfo := ⟨ei, if refOk then some c0 else none, m0, l0⟩ } := by
        unfold threadControl_saveCLEInfo
        rw [hn]
        exact findRunningThread_updateRunning_self hn (fun m0 hm0 => hm0)
      cases refOk <;> simp [threadControl_cmpCLEInfo, hs]
    · intro c m l
      have hs : findRunningThread (threadControl_clearCLEInfo st t) t =
          some { n with cleInfo := { n.cleInfo with ei := 0, clazz := none } } := by
        unfold threadControl_clearCLEInfo
        rw [hn]
        exact findRunningThread_updateRunning_self hn (fun m0 hm0 => hm0)
      simp [threadControl_cmpCLEInfo, hs]

/-- Witness for C8: saving a record and comparing the same tuple matches. -/
theorem claim_C8_witness :
    findRunningThread scenarioStart vt1 = some (vtNode vt1) ∧
    (threadControl_cmpCLEInfo
        (threadControl_saveCLEInfo true scenarioStart vt1 2 11 12 13) vt1 11 12 13 =
          true ↔
      ((2 : Nat) ≠ 0 ∧ (12 : Nat) = 12 ∧ (13 : Int) = 13 ∧ true = true ∧
        (11 : Nat) = 11)) :=
  ⟨by decide, (claim_C8.2 (vtNode vt1) (by decide)).2.1 true 2 11 12 13 11 12 13⟩

/-- C9: when the computed pop count fnum + 1 is below one, popFrames
returns the no-more-frames error without enabling single step, without
entering any monitor, without any runtime primitive and without touching
any node. -/
theorem claim_C9 {o : Oracle} {st : TCState} {t : JThread} {fnum : Int}
    (h : fnum + 1 < 1) :
    ∃ r, threadControl_popFrames o st t fnum = .ok r ∧
      r.err = .NO_MORE_FRAMES ∧
      r.st.runningThreads = st.runningThreads ∧
      r.st.runningVThreads = st.runningVThreads ∧
      r.st.otherThreads = st.otherThreads ∧
      (∀ a ∈ r.trace, a.isPrimitive = false ∧ a.isMonitorEnter = false) := by
  unfold threadControl_popFrames initLocks
  by_cases hl : st.popFrameLocksCreated = true
  · rw [if_pos hl]
    simp only
    rw [if_pos h]
    refine ⟨_, rfl, rfl, rfl, rfl, rfl, ?_⟩
    intro a ha
    exact absurd ha (by simp)
  · rw [if_neg hl]
    simp only
    rw [if_pos h]
    refine ⟨_, rfl, rfl, rfl, rfl, rfl, ?_⟩
    intro a ha
    simp only [List.mem_cons, List.not_mem_nil, or_false] at ha
    rcases ha with rfl | rfl <;> exact ⟨rfl, rfl⟩

/-- Witness for C9: popFrames with frame number -1. -/
theorem claim_C9_witness :
    (-1 : Int) + 1 < 1 ∧
    (∃ r, threadControl_popFrames oracleOk emptyState pt3 (-1) = .ok r ∧
      r.err = .NO_MORE_FRAMES ∧
      r.st.runningThreads = emptyState.runningThreads ∧
      r.st.runningVThreads = emptyState.runningVThreads ∧
      r.st.otherThreads = emptyState.otherThreads ∧
      (∀ a ∈ r.trace, a.isPrimitive = false ∧ a.isMonitorEnter = false)) :=
  ⟨by decide, @claim_C9 oracleOk emptyState pt3 (-1) (by decide)⟩

/-- Counterexample to C3 as stated: in the two-virtual-thread scenario the
exclusion list handed to ResumeAllVirtualThreads contains both tracked
virtual threads (every tracked virtual thread with a positive count is
excluded), not just the doubly suspended v1. -/
theorem claim_C3_counterexample :
    excludeListsOfTrace (traceOf scenarioResumeAll) = [[vt1, vt2]] ∧
    excludeListsOfTrace (traceOf scenarioResumeAll) ≠ [[vt1]] := by
  decide

/-- C3 amended: in the scenario (suspendAll, then one extra suspend of v1,
so v1 has count 2 and v2 count 1) resumeAll calls
ResumeAllVirtualThreads with the exclusion list [v1, v2]; the batch resume
then primitively resumes exactly v2, leaving v1 at count 1 still marked
for resume with an unchanged frame generation, and v2 at count 0,
unmarked, with its frame generation bumped. -/
theorem claim_C3 :
    (findRunningThread scenarioSuspended vt1).map (fun n => n.suspendCount) = some 2 ∧
    (findRunningThread scenarioSuspended vt2).map (fun n => n.suspendCount) = some 1 ∧
    excludeListsOfTrace (traceOf scenarioResumeAll) = [[vt1, vt2]] ∧
    resumeListsOfTrace (traceOf scenarioResumeAll) = [[vt2]] ∧
    (findRunningThread (stateOf scenarioResumeAll) vt1).map
        (fun n => (n.suspendCount, n.toBeResumed, n.frameGeneration)) =
      some (1, true, 0) ∧
    (findRunningThread (stateOf scenarioResumeAll) vt2).map
        (fun n => (n.suspendCount, n.toBeResumed, n.frameGeneration)) =
      some (0, false, 1) := by
  decide

/-- Counterexample to C4 as stated: a node created for a debug-agent thread
while a suspendAll is outstanding starts with count 0, below
suspendAllCount. -/
theorem claim_C4_counterexample :
    0 < c4State.suspendAllCount ∧
    (insertedNode (insertThread oracleOk.vthreadState c4State ListId.otherL pt9)).map
        (fun n => n.suspendCount) = some 0 := by
  decide

/-- C4 amended: a node freshly created while suspendAllCount is positive
inherits suspendCount = suspendAllCount, provided the thread is not a
debug-agent thread (debug threads are created with count 0,
platform-thread branch) or the insertion is on the virtual-thread list
(which never consults the debug set). -/
theorem claim_C4 {vstate : JThread → JvmtiError × Nat} {st : TCState} {lid : ListId}
    {t : JThread} {st1 : TCState} {node : ThreadNode} {lid2 : ListId}
    (hpos : 0 < st.suspendAllCount)
    (hfresh : findInList (st.list lid) t = none)
    (hdbg : threadControl_isDebugThread st t = false)
    (h : insertThread vstate st lid t = .ok (st1, node, lid2)) :
    node.suspendCount = st.suspendAllCount := by
  unfold insertThread at h
  rw [hfresh] at h
  simp only at h
  by_cases hv : lid = ListId.runningV
  · rw [if_neg (by simp [hv])] at h
    rcases hvs : vstate t with ⟨verr, vst⟩
    rw [hvs] at h
    simp only at h
    split_ifs at h
    all_goals
      first
        | omega
        | (simp only [TCResult.ok.injEq, Prod.mk.injEq] at h
           obtain ⟨-, h2, -⟩ := h
           rw [← h2]
           try rfl)
  · rw [if_pos (by simpa using hv)] at h
    rw [if_neg (by rw [hdbg]; simp), if_pos hpos] at h
    simp only [TCResult.ok.injEq, Prod.mk.injEq] at h
    obtain ⟨-, h2, -⟩ := h
    rw [← h2]

/-- Witness for C4: a fresh non-debug platform node under an outstanding
suspendAll starts at the nesting count. -/
theorem claim_C4_witness :
    (0 < c4State.suspendAllCount ∧
      findInList (c4State.list ListId.otherL) pt3 = none ∧
      threadControl_isDebugThread c4State pt3 = false) ∧
    c4Node.suspendCount = c4State.suspendAllCount := by
  have h : insertThread oracleOk.vthreadState c4State ListId.otherL pt3 =
      .ok (addNodeTo c4State ListId.otherL c4Node, c4Node, ListId.otherL) := by decide
  exact ⟨⟨by decide, by decide, by decide⟩,
    claim_C4 (by decide) (by decide) (by decide) h⟩

theorem resumeCopyCollect_req_cases (n : ThreadNode) :
    (resumeCopyCollect n).2 = [] ∨ (resumeCopyCollect n).2 = [n.thread] := by
  unfold resumeCopyCollect
  split_ifs <;> simp

theorem resumeCopyPass_req_sublist (l : List ThreadNode) :
    (resumeCopyPass l).2.Sublist (l.map (fun n => n.thread)) := by
  induction l with
  | nil => simp [resumeCopyPass]
  | cons n ns ih =>
    rcases hpair : resumeCopyPass ns with ⟨ns1, cs⟩
    rw [hpair] at ih
    have hgoal : (resumeCopyPass (n :: ns)).2 = (resumeCopyCollect n).2 ++ cs := by
      simp only [resumeCopyPass, hpair]
    rw [hgoal, List.map_cons]
    rcases resumeCopyCollect_req_cases n with hc | hc <;> rw [hc]
    · simpa using ih.cons n.thread
    · simpa using ih.cons₂ n.thread

theorem findInList_of_mem_nodup {l : List ThreadNode} {n : ThreadNode}
    (hnd : (l.map (fun m => m.thread)).Nodup) (hn : n ∈ l) :
    findInList l n.thread = some n := by
  induction l with
  | nil => cases hn
  | cons m ms ih =>
    rw [List.map_cons, List.nodup_cons] at hnd
    rcases List.mem_cons.mp hn with rfl | h1
    · exact findInList_cons_self rfl
    · have hthr : n.thread ∈ ms.map (fun m => m.thread) :=
        List.mem_map.mpr ⟨n, h1, rfl⟩
      have hne : m.thread ≠ n.thread := fun hc => hnd.1 (hc ▸ hthr)
      rw [findInList_cons_ne hne]
      exact ih hnd.2 h1

theorem resumeCopyCollect_of_pred {n : ThreadNode} (hok : nodeOk n)
    (hp : resumeCountPred n = true) : resumeCopyCollect n = (n, [n.thread]) := by
  have hp2 := of_decide_eq_true hp
  obtain ⟨hd, hc, ht⟩ := hp2
  have hsos : n.suspendOnStart = false := by
    cases hs : n.suspendOnStart
    · rfl
    · exact absurd ⟨ht, hs⟩ hok
  unfold resumeCopyCollect
  rw [if_neg hd, if_neg (by omega), if_neg (fun hx => by rw [hsos] at hx; exact absurd hx.2 (by simp)),
      if_pos ⟨hc, ht⟩]

theorem resumeCopyAccount_of_pred {n : ThreadNode} (hok : nodeOk n)
    (hp : resumeCountPred n = true) : resumeCopyAccount n = n := by
  have h1 := resumeCopyCollect_of_pred hok hp
  have h2 := resumeCopyCollect_node_eq n
  rw [h1] at h2
  exact h2.symm

theorem resumeCopyPass_req_mem {l : List ThreadNode} {n : ThreadNode}
    (hn : n ∈ l) (hok : nodeOk n) (hp : resumeCountPred n = true) :
    n.thread ∈ (resumeCopyPass l).2 := by
  induction l with
  | nil => cases hn
  | cons m ms ih =>
    rcases hpair : resumeCopyPass ms with ⟨ns1, cs⟩
    have hgoal : (resumeCopyPass (m :: ms)).2 = (resumeCopyCollect m).2 ++ cs := by
      simp only [resumeCopyPass, hpair]
    rw [hgoal]
    rcases List.mem_cons.mp hn with rfl | h1
    · rw [resumeCopyCollect_of_pred hok hp]
      simp
    · refine List.mem_append.mpr (Or.inr ?_)
      have hm := ih h1
      rw [hpair] at hm
      exact hm

theorem findInList_resumeCopyPass {l : List ThreadNode} {t : JThread} :
    findInList (resumeCopyPass l).1 t = (findInList l t).map resumeCopyAccount := by
  induction l with
  | nil => rfl
  | cons m ms ih =>
    rcases hpair : resumeCopyPass ms with ⟨ns1, cs⟩
    rw [hpair] at ih
    have hgoal : (resumeCopyPass (m :: ms)).1 = (resumeCopyCollect m).1 :: ns1 := by
      simp only [resumeCopyPass, hpair]
    rw [hgoal]
    have hth : (resumeCopyCollect m).1.thread = m.thread := by
      rw [resumeCopyCollect_node_eq, resumeCopyAccount_thread]
    by_cases hm : m.thread = t
    · rw [findInList_cons_self (by rw [hth]; exact hm), findInList_cons_self hm,
          resumeCopyCollect_node_eq]
      rfl
    · rw [findInList_cons_ne (by rw [hth]; exact hm), findInList_cons_ne hm, ih]

theorem applyHardResumes_notin {ts : List JThread} :
    ∀ {st st2 : TCState}, applyHardResumes st ts = .ok st2 → ∀ u, u ∉ ts →
      findRunningThread st2 u = findRunningThread st u := by
  induction ts with
  | nil =>
    intro st st2 h u hu
    simp only [applyHardResumes, TCResult.ok.injEq] at h
    rw [h]
  | cons t ts ih =>
    intro st st2 h u hu
    simp only [applyHardResumes] at h
    cases hf : findRunningThread st t with
    | none =>
      rw [hf] at h
      simp at h
    | some m =>
      rw [hf] at h
      simp only at h
      have hne : u ≠ t := fun hc => hu (hc ▸ List.mem_cons_self _ _)
      rw [ih h u (fun hc => hu (List.mem_cons_of_mem _ hc))]
      exact findRunningThread_updateRunning_ne hne
        (fun m0 hm0 => by rw [hardResumeUpdate_thread]; exact hm0)

theorem applyHardResumes_find {ts : List JThread} :
    ∀ {st st2 : TCState}, applyHardResumes st ts = .ok st2 → ts.Nodup →
      ∀ u m, u ∈ ts → findRunningThread st u = some m →
        findRunningThread st2 u = some (hardResumeUpdate m) := by
  induction ts with
  | nil =>
    intro st st2 h _ u m hu hfind
    cases hu
  | cons t ts ih =>
    intro st st2 h hnd u m hu hfind
    simp only [applyHardResumes] at h
    rcases List.mem_cons.mp hu with rfl | h1
    · rw [hfind] at h
      simp only at h
      rw [applyHardResumes_notin h u (List.nodup_cons.mp hnd).1]
      exact findRunningThread_updateRunning_self hfind
        (fun m0 hm0 => by rw [hardResumeUpdate_thread]; exact hm0)
    · cases hf : findRunningThread st t with
      | none =>
        rw [hf] at h
        simp at h
      | some m0 =>
        rw [hf] at h
        simp only at h
        have hne : u ≠ t := fun hc => (List.nodup_cons.mp hnd).1 (hc ▸ h1)
        refine ih h (List.nodup_cons.mp hnd).2 u m h1 ?_
        rw [findRunningThread_updateRunning_ne hne
          (fun m1 hm1 => by rw [hardResumeUpdate_thread]; exact hm1)]
        exact hfind

/-- C10: the batch list-resume consults the oracle only through the single
batch error code, never through the per-thread results array, and every
node of the request list (the nodes at count one marked for resume) is
accounted as resumed: count decremented, toBeResumed cleared and the frame
generation bumped, whatever the per-thread results were. -/
theorem claim_C10 {o : Oracle} {st : TCState} {r : StateOpResult}
    (hok : stateOk st) (hsep : listsSeparated st)
    (hnd1 : (st.runningThreads.map (fun n => n.thread)).Nodup)
    (hnd2 : (st.runningVThreads.map (fun n => n.thread)).Nodup)
    (h : commonResumeList o st = .ok r) :
    (∀ p : Oracle, p.resumeListErr = o.resumeListErr →
      commonResumeList p st = commonResumeList o st) ∧
    (∀ n, (n ∈ st.runningThreads ∨ n ∈ st.runningVThreads) →
      resumeCountPred n = true →
      findRunningThread r.st n.thread =
        some { n with suspendCount := n.suspendCount - 1, toBeResumed := false,
                      frameGeneration := n.frameGeneration + 1 }) := by
  constructor
  · intro p hp
    unfold commonResumeList
    rw [hp]
  · intro n hmem hpred
    have hnok : nodeOk n := by
      rcases hmem with h1 | h1
      · exact hok n (mem_allNodes_iff.mpr (Or.inl h1))
      · exact hok n (mem_allNodes_iff.mpr (Or.inr (Or.inl h1)))
    have hcnt : st.runningThreads.countP (fun n => resumeCountPred n)
        + st.runningVThreads.countP (fun n => resumeCountPred n) ≠ 0 := by
      rcases hmem with h1 | h1
      · have : 0 < st.runningThreads.countP (fun n => resumeCountPred n) :=
          List.countP_pos_iff.mpr ⟨n, h1, hpred⟩
        omega
      · have : 0 < st.runningVThreads.countP (fun n => resumeCountPred n) :=
          List.countP_pos_iff.mpr ⟨n, h1, hpred⟩
        omega
    unfold commonResumeList at h
    rw [if_neg hcnt] at h
    rcases hc1 : resumeCopyPass st.runningThreads with ⟨rt1, req1⟩
    rcases hc2 : resumeCopyPass st.runningVThreads with ⟨rv1, req2⟩
    rw [hc1, hc2] at h
    simp only at h
    cases happ : applyHardResumes
        { st with runningThreads := rt1, runningVThreads := rv1 } (req1 ++ req2) with
    | fatal e m =>
      rw [happ] at h
      simp at h
    | ok st2 =>
      rw [happ] at h
      simp only [TCResult.ok.injEq] at h
      rw [← h]
      have hplat1 : ∀ u ∈ req1, u.isVirtual = false := by
        intro u hu
        have hu2 : u ∈ st.runningThreads.map (fun n => n.thread) :=
          (hc1 ▸ resumeCopyPass_req_sublist st.runningThreads).mem hu
        obtain ⟨m0, hm0, rfl⟩ := List.mem_map.mp hu2
        exact hsep.1 m0 hm0
      have hvirt2 : ∀ u ∈ req2, u.isVirtual = true := by
        intro u hu
        have hu2 : u ∈ st.runningVThreads.map (fun n => n.thread) :=
          (hc2 ▸ resumeCopyPass_req_sublist st.runningVThreads).mem hu
        obtain ⟨m0, hm0, rfl⟩ := List.mem_map.mp hu2
        exact hsep.2 m0 hm0
      have hreqnd : (req1 ++ req2).Nodup := by
        refine List.Nodup.append ?_ ?_ ?_
        · exact (hc1 ▸ resumeCopyPass_req_sublist st.runningThreads).nodup hnd1
        · exact (hc2 ▸ resumeCopyPass_req_sublist st.runningVThreads).nodup hnd2
        · intro u hu1 hu2
          have := hplat1 u hu1
          have := hvirt2 u hu2
          simp_all
      rcases hmem with h1 | h1
      · have hvt : isVThread n.thread = false := hsep.1 n h1
        have hfind1 : findRunningThread
            { st with runningThreads := rt1, runningVThreads := rv1 } n.thread =
            some n := by
          unfold findRunningThread
          rw [hvt]
          simp only [Bool.false_eq_true, if_false]
          show findInList rt1 n.thread = some n
          have := findInList_resumeCopyPass (l := st.runningThreads) (t := n.thread)
          rw [hc1] at this
          simp only at this
          rw [this, findInList_of_mem_nodup hnd1 h1]
          simp [resumeCopyAccount_of_pred hnok hpred]
        have hmemreq : n.thread ∈ req1 ++ req2 := by
          refine List.mem_append.mpr (Or.inl ?_)
          have := resumeCopyPass_req_mem h1 hnok hpred
          rw [hc1] at this
          exact this
        exact applyHardResumes_find happ hreqnd n.thread n hmemreq hfind1
      · have hvt : isVThread n.thread = true := hsep.2 n h1
        have hfind1 : findRunningThread
            { st with runningThreads := rt1, runningVThreads := rv1 } n.thread =
            some n := by
          unfold findRunningThread
          rw [hvt]
          simp only [if_true]
          show findInList rv1 n.thread = some n
          have := findInList_resumeCopyPass (l := st.runningVThreads) (t := n.thread)
          rw [hc2] at this
          simp only at this
          rw [this, findInList_of_mem_nodup hnd2 h1]
          simp [resumeCopyAccount_of_pred hnok hpred]
        have hmemreq : n.thread ∈ req1 ++ req2 := by
          refine List.mem_append.mpr (Or.inr ?_)
          have := resumeCopyPass_req_mem h1 hnok hpred
          rw [hc2] at this
          exact this
        exact applyHardResumes_find happ hreqnd n.thread n hmemreq hfind1

/-- Witness for C10: in the suspended scenario the batch resume hard
resumes the vt2 node, clearing its mark and bumping its frame
generation. -/
theorem claim_C10_witness :
    (stateOk scenarioSuspended ∧ listsSeparated scenarioSuspended ∧
      c10Node ∈ scenarioSuspended.runningVThreads ∧ resumeCountPred c10Node = true) ∧
    findRunningThread (resOk (commonResumeList oracleOk scenarioSuspended)).st
        c10Node.thread = some (hardResumeUpdate c10Node) := by
  have h : commonResumeList oracleOk scenarioSuspended =
      .ok (resOk (commonResumeList oracleOk scenarioSuspended)) := by decide
  exact ⟨⟨by decide, by decide, by decide, by decide⟩,
    (claim_C10 (by decide) (by decide) (by decide) (by decide) h).2 c10Node
      (Or.inr (by decide)) (by decide)⟩

/-- C2: every operation preserves the invariant that no node ever has
toBeResumed and suspendOnStart set together: the per-node suspend (under
the strengthened node well-formedness the state operations maintain),
deferred suspend and resume preserve it, and the state-level per-thread
suspend and resume, batch suspend and batch resume, VM-wide suspend and
resume, and reset all yield states whose nodes satisfy it. -/
theorem claim_C2 {o : Oracle} :
    (∀ e n, nodeWf n → nodeOk (suspendThreadByNode e n).node) ∧
    (∀ e n, nodeOk n → nodeOk (deferredSuspendThreadByNode e n).node) ∧
    (∀ e n, nodeOk n → nodeOk (resumeThreadByNode e n).node) ∧
    (∀ st t d r, stateWf st → threadControl_suspendThread o st t d = .ok r →
      stateOk r.st) ∧
    (∀ st t d, stateOk st → stateOk (threadControl_resumeThread o st t d).st) ∧
    (∀ st l r, stateWf st → listsSeparated st → List.Nodup l →
      (∀ t ∈ l, t.isVirtual = false) → commonSuspendList o st l = .ok r →
      stateOk r.st) ∧
    (∀ st r, stateOk st → commonResumeList o st = .ok r → stateOk r.st) ∧
    (∀ v st r, stateWf st → listsSeparated st → List.Nodup o.allThreads →
      (∀ t ∈ o.allThreads, t.isVirtual = false) →
      (∀ n ∈ st.runningVThreads, n.suspendOnStart = false) →
      threadControl_suspendAll o v st = .ok r → stateOk r.st) ∧
    (∀ v st r, stateOk st → threadControl_resumeAll o v st = .ok r → stateOk r.st) ∧
    (∀ v w st r, threadControl_reset o v w st = .ok r → stateOk r.st) :=
  ⟨fun _ _ h => (suspendThreadByNode_wf h).toNodeOk,
   fun _ _ h => deferredSuspendThreadByNode_ok h,
   fun _ _ h => resumeThreadByNode_ok h,
   fun _ _ _ _ hwf h => threadControl_suspendThread_ok hwf h,
   fun _ _ _ h => threadControl_resumeThread_ok h,
   fun _ _ _ hwf hsep hnd hplat h => (commonSuspendList_wf hwf hsep hnd hplat h).toStateOk,
   fun _ _ h hcl => (commonResumeList_ok h hcl).1,
   fun _ _ _ hwf hsep hnd hplat hsos h =>
     threadControl_suspendAll_ok hwf hsep hnd hplat hsos h,
   fun _ _ _ h hra => threadControl_resumeAll_ok h hra,
   fun _ _ _ _ h => (threadControl_reset_ok h).toStateOk⟩

/-- Witness for C2: the invariant checks on concrete inputs: a fresh
virtual-thread node through the per-node suspend and the tracked scenario
state through the per-thread resume. -/
theorem claim_C2_witness :
    (nodeWf (ThreadNode.init vt1) ∧ stateOk scenarioStart) ∧
    nodeOk (suspendThreadByNode JvmtiError.NONE (ThreadNode.init vt1)).node ∧
    stateOk (threadControl_resumeThread oracleOk scenarioStart vt1 false).st :=
  ⟨⟨by decide, by decide⟩,
   (claim_C2 (o := oracleOk)).1 JvmtiError.NONE (ThreadNode.init vt1) (by decide),
   (claim_C2 (o := oracleOk)).2.2.2.2.1 scenarioStart vt1 false (by decide)⟩

end ThreadControl
